import Mathlib

/-!
Verification of the Bitcoin address codec: script classification (Solver),
power-of-two base conversion (ConvertBits), script-to-address rendering
(ExtractDestination) and address-to-script parsing (DecodeDestination /
IsValid), together with the Base58Check and Bech32/Bech32m encodings they
rely on.

Byte scripts and text strings are modelled as `List Nat` (byte values /
ASCII codes); machine integers are modelled as `Nat` with explicit masking
where the code masks.
-/

namespace Btc

/-! ## Opcode constants -/

def OP_0 : Nat := 0x00
def OP_PUSHDATA1 : Nat := 0x4c
def OP_PUSHDATA2 : Nat := 0x4d
def OP_PUSHDATA4 : Nat := 0x4e
def OP_RESERVED : Nat := 0x50
def OP_1 : Nat := 0x51
def OP_16 : Nat := 0x60
def OP_RETURN : Nat := 0x6a
def OP_DUP : Nat := 0x76
def OP_EQUAL : Nat := 0x87
def OP_EQUALVERIFY : Nat := 0x88
def OP_HASH160 : Nat := 0xa9
def OP_CHECKSIG : Nat := 0xac
def OP_CHECKMULTISIG : Nat := 0xae

def BECH32_WITNESS_PROG_MAX_LEN : Nat := 40
def WITNESS_V0_SCRIPTHASH_SIZE : Nat := 32
def WITNESS_V0_KEYHASH_SIZE : Nat := 20
def WITNESS_V1_TAPROOT_SIZE : Nat := 32

/-! ## CPubKey size checks (`CPubKey::GetLen`, `CPubKey::ValidSize`) -/

/-- `CPubKey::GetLen`: length of a pubkey with the given first byte. -/
def GetLen (chHeader : Nat) : Nat :=
  if chHeader = 2 ∨ chHeader = 3 then 33
  else if chHeader = 4 ∨ chHeader = 6 ∨ chHeader = 7 then 65
  else 0

/-- `CPubKey::ValidSize`. -/
def ValidSize (vch : List Nat) : Bool :=
  decide (0 < vch.length) && decide (GetLen (vch.getD 0 0) = vch.length)

/-! ## Script opcode reading

`GetScriptOp` is repository code not present under `src/`. -/

/-- Modelled from the spec: `read_op(iter, end)` of §4.D (the repository's
`GetScriptOp`, whose implementation file is not under `src/`).  Reads one
opcode from the front of the byte list; opcode values `0x01..0x4b` push that
many following bytes literally (`0x00` pushes nothing); `OP_PUSHDATA1/2/4`
read 1/2/4 little-endian length bytes and then that many payload bytes.
Returns `(opcode, payload, remainder)`, or `none` when the bytes run out. -/
def GetScriptOp (s : List Nat) : Option (Nat × List Nat × List Nat) :=
  match s with
  | [] => none
  | op :: rest =>
    if op ≤ 75 then
      if op ≤ rest.length then some (op, rest.take op, rest.drop op) else none
    else if op = OP_PUSHDATA1 then
      match rest with
      | n :: r2 => if n ≤ r2.length then some (op, r2.take n, r2.drop n) else none
      | [] => none
    else if op = OP_PUSHDATA2 then
      match rest with
      | a :: b :: r2 =>
        let n := a + 256 * b
        if n ≤ r2.length then some (op, r2.take n, r2.drop n) else none
      | _ => none
    else if op = OP_PUSHDATA4 then
      match rest with
      | a :: b :: c :: d :: r2 =>
        let n := a + 256 * b + 65536 * c + 16777216 * d
        if n ≤ r2.length then some (op, r2.take n, r2.drop n) else none
      | _ => none
    else some (op, [], rest)

/-- `IsSmallInteger`: OP_1 through OP_16. -/
def IsSmallInteger (opcode : Nat) : Bool :=
  decide (OP_1 ≤ opcode) && decide (opcode ≤ OP_16)

/-- Modelled from the spec: `decode_op_n(op) = op - OP_1 + 1` (§4.D), with
`OP_0 ↦ 0`; the repository's `DecodeOP_N` is not under `src/`. -/
def DecodeOP_N (opcode : Nat) : Nat :=
  if opcode = OP_0 then 0 else opcode - OP_1 + 1

/-- Modelled from the spec: `encode_op_n(n) = OP_1 + n - 1` for `n ∈ [1,16]`
(§4.D), with `0 ↦ OP_0`; the repository's `EncodeOP_N` is not under `src/`. -/
def EncodeOP_N (n : Nat) : Nat :=
  if n = 0 then OP_0 else OP_1 + n - 1

/-- Modelled from the spec: `encode_push_bytes_n(n) = n` for `n ∈ [1,75]`
(§4.D); the repository's `EncodePushBytes_N` is not under `src/`. -/
def EncodePushBytes_N (n : Nat) : Nat := n

/-! ## Template matchers -/

/-- `MatchPayToPubkey`: returns the pubkey when the script is
`<push 65> <pubkey> OP_CHECKSIG` or `<push 33> <pubkey> OP_CHECKSIG`
with a valid-sized pubkey. -/
def MatchPayToPubkey (script : List Nat) : Option (List Nat) :=
  if script.length = 67 ∧ script.getD 0 0 = 65 ∧ script.getLast? = some OP_CHECKSIG then
    if ValidSize ((script.drop 1).take 65) then some ((script.drop 1).take 65) else none
  else if script.length = 35 ∧ script.getD 0 0 = 33 ∧ script.getLast? = some OP_CHECKSIG then
    if ValidSize ((script.drop 1).take 33) then some ((script.drop 1).take 33) else none
  else none

/-- `MatchPayToPubkeyHash`. -/
def MatchPayToPubkeyHash (script : List Nat) : Option (List Nat) :=
  if script.length = 25 ∧ script.getD 0 0 = OP_DUP ∧ script.getD 1 0 = OP_HASH160
     ∧ script.getD 2 0 = 20 ∧ script.getD 23 0 = OP_EQUALVERIFY
     ∧ script.getD 24 0 = OP_CHECKSIG then
    some ((script.drop 3).take 20)
  else none

/-- `IsPayToScriptHash`. -/
def IsPayToScriptHash (s : List Nat) : Bool :=
  decide (s.length = 23) && decide (s.getD 0 0 = OP_HASH160)
    && decide (s.getD 1 0 = 0x14) && decide (s.getD 22 0 = OP_EQUAL)

/-- `IsWitnessProgram`: returns `(version, program)` when the script is a
1-byte version opcode followed by a bare push of the remaining bytes. -/
def IsWitnessProgram (s : List Nat) : Option (Nat × List Nat) :=
  if s.length < 4 ∨ s.length > 42 then none
  else if s.getD 0 0 ≠ OP_0 ∧ (s.getD 0 0 < OP_1 ∨ s.getD 0 0 > OP_16) then none
  else if s.getD 1 0 + 2 = s.length then some (DecodeOP_N (s.getD 0 0), s.drop 2)
  else none

theorem getScriptOp_length_lt {s : List Nat} {op : Nat} {d rest : List Nat}
    (h : GetScriptOp s = some (op, d, rest)) : rest.length < s.length := by
  match s with
  | [] => simp [GetScriptOp] at h
  | b :: r =>
    simp only [GetScriptOp] at h
    split at h
    · split at h
      · simp only [Option.some.injEq, Prod.mk.injEq] at h
        obtain ⟨-, -, h3⟩ := h
        subst h3
        simp only [List.length_cons, List.length_drop]
        omega
      · exact absurd h (by simp)
    · split at h
      · match r with
        | [] => exact absurd h (by simp)
        | n :: r2 =>
          simp only at h
          split at h
          · simp only [Option.some.injEq, Prod.mk.injEq] at h
            obtain ⟨-, -, h3⟩ := h
            subst h3
            simp only [List.length_cons, List.length_drop]
            omega
          · exact absurd h (by simp)
      · split at h
        · match r with
          | [] => exact absurd h (by simp)
          | [a] => exact absurd h (by simp)
          | a :: b :: r2 =>
            simp only at h
            split at h
            · simp only [Option.some.injEq, Prod.mk.injEq] at h
              obtain ⟨-, -, h3⟩ := h
              subst h3
              simp only [List.length_cons, List.length_drop]
              omega
            · exact absurd h (by simp)
        · split at h
          · match r with
            | [] => exact absurd h (by simp)
            | [a] => exact absurd h (by simp)
            | [a, b] => exact absurd h (by simp)
            | [a, b, c] => exact absurd h (by simp)
            | a :: b :: c :: d' :: r2 =>
              simp only at h
              split at h
              · simp only [Option.some.injEq, Prod.mk.injEq] at h
                obtain ⟨-, -, h3⟩ := h
                subst h3
                simp only [List.length_cons, List.length_drop]
                omega
              · exact absurd h (by simp)
          · simp only [Option.some.injEq, Prod.mk.injEq] at h
            obtain ⟨-, -, h3⟩ := h
            subst h3
            simp

/-- The `while (pc < end)` loop of `IsPushOnly`, with structural fuel;
each successful read consumes at least one byte, so `fuel = s.length`
makes this the exact loop. -/
def isPushOnlyLoop : Nat → List Nat → Bool
  | 0, s => s.isEmpty
  | fuel + 1, s =>
    if s.isEmpty then true
    else
      match GetScriptOp s with
      | none => false
      | some (op, _, rest) =>
        if op > OP_16 then false else isPushOnlyLoop fuel rest

/-- `IsPushOnly`: every opcode until the end reads successfully and has
value ≤ OP_16. -/
def IsPushOnly (s : List Nat) : Bool := isPushOnlyLoop s.length s

/-- The pubkey-collecting loop of `MatchMultisig`: repeatedly read script
operations while the payload is a valid-sized pubkey; stops at the first
operation whose payload is not, returning that opcode, the pubkeys, and the
remainder of the script past that operation.  Returns `none` when reading
fails (the C++ leaves `opcode = OP_INVALIDOPCODE`, which is not a small
integer, so the enclosing match fails).  Structural fuel: each successful
read consumes at least one byte, so `fuel = s.length + 1` makes this the
exact loop. -/
def msLoop : Nat → List Nat → List (List Nat) →
    Option (Nat × List (List Nat) × List Nat)
  | 0, _, _ => none
  | fuel + 1, s, acc =>
    match GetScriptOp s with
    | none => none
    | some (op, data, rest) =>
      if ValidSize data then msLoop fuel rest (acc ++ [data]) else some (op, acc, rest)

/-- `MatchMultisig`: returns `(required, pubkeys)` on success. -/
def MatchMultisig (script : List Nat) : Option (Nat × List (List Nat)) :=
  if script.length < 1 ∨ script.getLast? ≠ some OP_CHECKMULTISIG then none
  else
    match GetScriptOp script with
    | none => none
    | some (op1, _, rest) =>
      if ¬ IsSmallInteger op1 then none
      else
        match msLoop (rest.length + 1) rest [] with
        | none => none
        | some (opn, pubkeys, rest2) =>
          if ¬ IsSmallInteger opn then none
          else if pubkeys.length ≠ DecodeOP_N opn ∨ DecodeOP_N opn < DecodeOP_N op1 then none
          else if rest2.length = 1 then some (DecodeOP_N op1, pubkeys) else none

/-! ## Solver -/

inductive TxoutType where
  | NONSTANDARD
  | PUBKEY
  | PUBKEYHASH
  | SCRIPTHASH
  | MULTISIG
  | NULL_DATA
  | WITNESS_V0_SCRIPTHASH
  | WITNESS_V0_KEYHASH
  | WITNESS_V1_TAPROOT
  | WITNESS_UNKNOWN
deriving DecidableEq, Repr

open TxoutType in
/-- `Solver`: classify an output script and extract its solution payloads. -/
def Solver (scriptPubKey : List Nat) : TxoutType × List (List Nat) :=
  if IsPayToScriptHash scriptPubKey then
    (SCRIPTHASH, [(scriptPubKey.drop 2).take 20])
  else
    match IsWitnessProgram scriptPubKey with
    | some (wv, wp) =>
      if wv = 0 ∧ wp.length = WITNESS_V0_KEYHASH_SIZE then (WITNESS_V0_KEYHASH, [wp])
      else if wv = 0 ∧ wp.length = WITNESS_V0_SCRIPTHASH_SIZE then (WITNESS_V0_SCRIPTHASH, [wp])
      else if wv = 1 ∧ wp.length = WITNESS_V1_TAPROOT_SIZE then (WITNESS_V1_TAPROOT, [wp])
      else if wv ≠ 0 then (WITNESS_UNKNOWN, [[wv], wp])
      else (NONSTANDARD, [])
    | none =>
      if 1 ≤ scriptPubKey.length ∧ scriptPubKey.getD 0 0 = OP_RETURN
          ∧ IsPushOnly (scriptPubKey.drop 1) then (NULL_DATA, [])
      else
        match MatchPayToPubkey scriptPubKey with
        | some pk => (PUBKEY, [pk])
        | none =>
          match MatchPayToPubkeyHash scriptPubKey with
          | some h => (PUBKEYHASH, [h])
          | none =>
            match MatchMultisig scriptPubKey with
            | some (required, keys) =>
              (MULTISIG, [[required]] ++ keys ++ [[keys.length]])
            | none => (NONSTANDARD, [])

/-! ## ConvertBits

The templated `ConvertBits<frombits, tobits, pad>` with an output callback
becomes a function on explicit `frombits`/`tobits`/`pad` arguments returning
the emitted symbol list (`none` on the unpadded failure path). -/

/-- The inner `while (bits >= tobits)` loop of `ConvertBits`: emits
`(acc >> bits) & maxv` after each `bits -= tobits`, returning the final
`bits` together with the emitted symbols in order.  Structural fuel: each
iteration lowers `bits` by `tb ≥ 1`, so any `fuel ≥ bits` makes this the
exact loop. -/
def emitLoopF (tb maxv acc : Nat) : Nat → Nat → Nat × List Nat
  | 0, bits => (bits, [])
  | fuel + 1, bits =>
    if 0 < tb ∧ tb ≤ bits then
      let r := emitLoopF tb maxv acc fuel (bits - tb)
      (r.1, ((acc >>> (bits - tb)) &&& maxv) :: r.2)
    else (bits, [])

def emitLoop (tb maxv acc bits : Nat) : Nat × List Nat := emitLoopF tb maxv acc bits bits

/-- The main `while (it != end)` loop of `ConvertBits`: state is
`(acc, bits)`; returns the final state and all emitted symbols. -/
def cbLoop (fb tb maxAcc maxv : Nat) : List Nat → Nat → Nat → Nat × Nat × List Nat
  | [], acc, bits => (acc, bits, [])
  | v :: rest, acc, bits =>
    let acc2 := ((acc <<< fb) ||| v) &&& maxAcc
    let e := emitLoop tb maxv acc2 (bits + fb)
    let r := cbLoop fb tb maxAcc maxv rest acc2 e.1
    (r.1, r.2.1, e.2 ++ r.2.2)

/-- `ConvertBits<frombits, tobits, pad>`. -/
def ConvertBits (fb tb : Nat) (pad : Bool) (input : List Nat) : Option (List Nat) :=
  let maxv := 2 ^ tb - 1
  let maxAcc := 2 ^ (fb + tb - 1) - 1
  let r := cbLoop fb tb maxAcc maxv input 0 0
  let acc := r.1
  let bits := r.2.1
  let out := r.2.2
  if pad then
    if bits ≠ 0 then some (out ++ [(acc <<< (tb - bits)) &&& maxv]) else some out
  else if fb ≤ bits ∨ ((acc <<< (tb - bits)) &&& maxv) ≠ 0 then none
  else some out

/-! ## SHA-256

The repository's hashing primitive (used by Base58Check for its 4-byte
checksum) is not under `src/`. -/

/-- Modelled from the spec: the SHA-256 hash named in §4.B as the
Base58Check checksum primitive (FIPS 180-4); the repository's
implementation is not under `src/`.  32-bit right rotation. -/
def rotr32 (n w : Nat) : Nat := ((w >>> n) ||| (w <<< (32 - n))) % 2 ^ 32

def shaK : List Nat :=
  [1116352408, 1899447441, 3049323471, 3921009573,
   961987163, 1508970993, 2453635748, 2870763221,
   3624381080, 310598401, 607225278, 1426881987,
   1925078388, 2162078206, 2614888103, 3248222580,
   3835390401, 4022224774, 264347078, 604807628,
   770255983, 1249150122, 1555081692, 1996064986,
   2554220882, 2821834349, 2952996808, 3210313671,
   3336571891, 3584528711, 113926993, 338241895,
   666307205, 773529912, 1294757372, 1396182291,
   1695183700, 1986661051, 2177026350, 2456956037,
   2730485921, 2820302411, 3259730800, 3345764771,
   3516065817, 3600352804, 4094571909, 275423344,
   430227734, 506948616, 659060556, 883997877,
   958139571, 1322822218, 1537002063, 1747873779,
   1955562222, 2024104815, 2227730452, 2361852424,
   2428436474, 2756734187, 3204031479, 3329325298]

def shaH0 : List Nat :=
  [1779033703, 3144134277, 1013904242, 2773480762,
   1359893119, 2600822924, 528734635, 1541459225]

def shaS0 (x : Nat) : Nat := rotr32 7 x ^^^ rotr32 18 x ^^^ (x >>> 3)
def shaS1 (x : Nat) : Nat := rotr32 17 x ^^^ rotr32 19 x ^^^ (x >>> 10)
def shaB0 (x : Nat) : Nat := rotr32 2 x ^^^ rotr32 13 x ^^^ rotr32 22 x
def shaB1 (x : Nat) : Nat := rotr32 6 x ^^^ rotr32 11 x ^^^ rotr32 25 x
def shaCh (x y z : Nat) : Nat := (x &&& y) ^^^ ((x ^^^ 0xffffffff) &&& z)
def shaMaj (x y z : Nat) : Nat := (x &&& y) ^^^ (x &&& z) ^^^ (y &&& z)

/-- Extend the 16-word block to the 64-word message schedule. -/
def shaExtend : Nat → List Nat → List Nat
  | 0, ws => ws
  | n + 1, ws =>
    let L := ws.length
    shaExtend n (ws ++ [(shaS1 (ws.getD (L - 2) 0) + ws.getD (L - 7) 0
      + shaS0 (ws.getD (L - 15) 0) + ws.getD (L - 16) 0) % 2 ^ 32])

/-- One SHA-256 compression round on state `[a,b,c,d,e,f,g,h]`. -/
def shaRound (st : List Nat) (kw : Nat × Nat) : List Nat :=
  let a := st.getD 0 0
  let b := st.getD 1 0
  let c := st.getD 2 0
  let d := st.getD 3 0
  let e := st.getD 4 0
  let f := st.getD 5 0
  let g := st.getD 6 0
  let h := st.getD 7 0
  let t1 := (h + shaB1 e + shaCh e f g + kw.1 + kw.2) % 2 ^ 32
  let t2 := (shaB0 a + shaMaj a b c) % 2 ^ 32
  [(t1 + t2) % 2 ^ 32, a, b, c, (d + t1) % 2 ^ 32, e, f, g]

/-- Compress one 16-word block into the running hash state. -/
def shaCompress (st block : List Nat) : List Nat :=
  let ws := shaExtend 48 block
  let fin := (shaK.zip ws).foldl shaRound st
  (st.zip fin).map (fun p => (p.1 + p.2) % 2 ^ 32)

/-- SHA-256 padding: append `0x80`, zero bytes to 56 mod 64, then the
bit length as 8 big-endian bytes. -/
def shaPad (msg : List Nat) : List Nat :=
  let L := msg.length
  let k := (120 - (L + 1) % 64) % 64
  msg ++ [0x80] ++ List.replicate k 0
    ++ [56, 48, 40, 32, 24, 16, 8, 0].map (fun s => ((8 * L) >>> s) % 256)

/-- Big-endian 4-byte grouping of a byte list into 32-bit words. -/
def bytesToWords : List Nat → List Nat
  | a :: b :: c :: d :: r => (a * 16777216 + b * 65536 + c * 256 + d) :: bytesToWords r
  | _ => []

/-- Split a word list into 16-word blocks (structural fuel: any
`fuel ≥ l.length` makes this exact). -/
def chunk16F : Nat → List Nat → List (List Nat)
  | 0, _ => []
  | fuel + 1, l => if l.isEmpty then [] else l.take 16 :: chunk16F fuel (l.drop 16)

def chunk16 (l : List Nat) : List (List Nat) := chunk16F l.length l

/-- SHA-256 of a byte list, as 32 bytes. -/
def sha256 (msg : List Nat) : List Nat :=
  let st := (chunk16 (bytesToWords (shaPad msg))).foldl shaCompress shaH0
  st.flatMap (fun w => [w / 16777216 % 256, w / 65536 % 256, w / 256 % 256, w % 256])

/-! ## Base58 / Base58Check

The Base58 codec is repository code not under `src/`. -/

/-- The Base58 alphabet of §4.B, as ASCII codes. -/
def B58CHARS : List Nat :=
  "123456789ABCDEFGHJKLMNPQRSTUVWXYZabcdefghijkmnopqrstuvwxyz".toList.map (fun c => c.toNat)

/-- Count of leading occurrences of `v`. -/
def leadCount (v : Nat) : List Nat → Nat
  | [] => 0
  | b :: r => if b = v then leadCount v r + 1 else 0

/-- Big-endian value of a digit list in base `B`. -/
def beVal (B : Nat) (l : List Nat) : Nat := l.foldl (fun a d => a * B + d) 0

/-- Little-endian digit extraction with structural fuel (any
`fuel ≥ n` suffices, since the digit count is at most `n`). -/
def digitsRevF (B : Nat) : Nat → Nat → List Nat
  | 0, _ => []
  | fuel + 1, n => if n = 0 then [] else n % B :: digitsRevF B fuel (n / B)

/-- Big-endian digit list of `n` in base `B` (empty for 0). -/
def natToBE (B n : Nat) : List Nat := (digitsRevF B n n).reverse

/-- Modelled from the spec: `encode_base58` of §4.B (big-endian base-58 with
leading zero bytes mapped to leading `'1'` characters); the repository's
implementation is not under `src/`. -/
def encodeBase58 (x : List Nat) : List Nat :=
  let z := leadCount 0 x
  List.replicate z 49 ++ (natToBE 58 (beVal 256 (x.drop z))).map (fun d => B58CHARS.getD d 0)

/-- Base58 value of one ASCII code. -/
def b58Val (c : Nat) : Option Nat := B58CHARS.findIdx? (fun x => x == c)

/-- Modelled from the spec: `decode_base58(text, max_len)` of §4.B; fails on
an invalid character or a result longer than `max_len`; leading `'1'`
characters map to leading zero bytes.  The repository's implementation is
not under `src/`. -/
def decodeBase58 (s : List Nat) (maxLen : Nat) : Option (List Nat) :=
  match s.mapM b58Val with
  | none => none
  | some vals =>
    let z := leadCount 49 s
    let res := List.replicate z 0 ++ natToBE 256 (beVal 58 (vals.drop z))
    if res.length > maxLen then none else some res

/-- First 4 bytes of the double SHA-256 of the payload (§4.B). -/
def checksum4 (payload : List Nat) : List Nat := (sha256 (sha256 payload)).take 4

/-- Modelled from the spec: `encode_base58_check(payload)` of §4.B; the
repository's implementation is not under `src/`. -/
def encodeBase58Check (payload : List Nat) : List Nat :=
  encodeBase58 (payload ++ checksum4 payload)

/-- Modelled from the spec: `decode_base58_check(text, max_len)` of §4.B
(decode, verify and strip the trailing 4-byte double-SHA-256 checksum,
reject payloads longer than `max_len`); the repository's implementation is
not under `src/`. -/
def decodeBase58Check (s : List Nat) (maxLen : Nat) : Option (List Nat) :=
  match decodeBase58 s (maxLen + 4) with
  | none => none
  | some full =>
    if full.length < 4 then none
    else
      let payload := full.take (full.length - 4)
      if full.drop (full.length - 4) = checksum4 payload then some payload else none

/-! ## Bech32 / Bech32m

The Bech32 codec is repository code not under `src/`; it is modelled from
§4.C of the spec (BIP-173/350). -/

inductive Bech32Enc where
  | BECH32
  | BECH32M
  | INVALID
deriving DecidableEq, Repr

structure Bech32Res where
  encoding : Bech32Enc
  hrp : List Nat
  data : List Nat
deriving DecidableEq, Repr

/-- The Bech32 data alphabet of §4.C, as ASCII codes. -/
def B32CHARS : List Nat :=
  "qpzry9x8gf2tvdw0s3jn54khce6mua7l".toList.map (fun c => c.toNat)

def isUpperC (c : Nat) : Bool := decide (65 ≤ c) && decide (c ≤ 90)
def isLowerC (c : Nat) : Bool := decide (97 ≤ c) && decide (c ≤ 122)

/-- ASCII lowercase folding (`bech32::ToLower`). -/
def toLowerL (s : List Nat) : List Nat :=
  s.map (fun c => if isUpperC c then c + 32 else c)

/-- Modelled from the spec: one step of the BIP-173 `polymod` checksum
computation over GF(2) with the generator constants of §4.C. -/
def polymodStep (chk v : Nat) : Nat :=
  let b := chk >>> 25
  (((((chk &&& 0x1ffffff) <<< 5) ^^^ v)
    ^^^ (if b.testBit 0 then 0x3b6a57b2 else 0))
    ^^^ (if b.testBit 1 then 0x26508e6d else 0)
    ^^^ (if b.testBit 2 then 0x1ea119fa else 0)
    ^^^ (if b.testBit 3 then 0x3d4233dd else 0))
    ^^^ (if b.testBit 4 then 0x2a1462b3 else 0)

/-- Modelled from the spec: the BIP-173 `polymod` over a symbol sequence. -/
def bech32Polymod (vs : List Nat) : Nat := vs.foldl polymodStep 1

/-- HRP expansion `hrp_hi ++ [0] ++ hrp_lo` of §4.C. -/
def hrpExpand (hrp : List Nat) : List Nat :=
  hrp.map (fun c => c >>> 5) ++ [0] ++ hrp.map (fun c => c &&& 31)

def bech32Const (e : Bech32Enc) : Nat :=
  match e with
  | .BECH32M => 0x2bc830a3
  | _ => 1

/-- Modelled from the spec: the six checksum symbols of §4.C. -/
def bech32CreateChecksum (e : Bech32Enc) (hrp data : List Nat) : List Nat :=
  let pm := bech32Polymod (hrpExpand hrp ++ data ++ [0, 0, 0, 0, 0, 0]) ^^^ bech32Const e
  (List.range 6).map (fun i => (pm >>> (5 * (5 - i))) &&& 31)

/-- Modelled from the spec: `bech32::encode(enc, hrp, data)` of §4.C:
`<hrp> '1' <data-symbols> <6-symbol-checksum>`; the repository's
implementation is not under `src/`. -/
def bech32Encode (e : Bech32Enc) (hrp data : List Nat) : List Nat :=
  hrp ++ [49] ++ (data ++ bech32CreateChecksum e hrp data).map (fun v => B32CHARS.getD v 0)

/-- Value of one Bech32 data character. -/
def b32Val (c : Nat) : Option Nat := B32CHARS.findIdx? (fun x => x == c)

/-- Split a string at its last `'1'` separator. -/
def splitLastOne (s : List Nat) : Option (List Nat × List Nat) :=
  match s.reverse.findIdx? (fun c => c == 49) with
  | none => none
  | some k =>
    let pos := s.length - 1 - k
    some (s.take pos, s.drop (pos + 1))

/-- Modelled from the spec: `bech32::decode(text)` of §4.C with the size
bound of §5 (reject strings over 90 characters): lowercase-fold rejecting
mixed case, split on the last `'1'`, validate the HRP (1..83 characters in
`[33,126]`) and data alphabet with a 6-symbol checksum, and classify the
checksum residual as BECH32 (1), BECH32M (0x2bc830a3) or invalid.  The
repository's implementation is not under `src/`. -/
def bech32Decode (str : List Nat) : Bech32Res :=
  if (str.any isUpperC && str.any isLowerC) ∨ 90 < str.length then ⟨.INVALID, [], []⟩
  else
    let s := toLowerL str
    match splitLastOne s with
    | none => ⟨.INVALID, [], []⟩
    | some (hrp, dataPart) =>
      if hrp.length < 1 ∨ 83 < hrp.length
          ∨ ¬ hrp.all (fun c => decide (33 ≤ c) && decide (c ≤ 126))
          ∨ dataPart.length < 6 then ⟨.INVALID, [], []⟩
      else
        match dataPart.mapM b32Val with
        | none => ⟨.INVALID, [], []⟩
        | some values =>
          let pm := bech32Polymod (hrpExpand hrp ++ values)
          if pm = 1 then ⟨.BECH32, hrp, values.take (values.length - 6)⟩
          else if pm = 0x2bc830a3 then ⟨.BECH32M, hrp, values.take (values.length - 6)⟩
          else ⟨.INVALID, [], []⟩

/-! ## Network parameters -/

/-- `bitcoin::core::Params`, restricted to the fields the codec reads:
the two Base58 address prefixes and the Bech32 HRP. -/
structure Params where
  pubkeyAddrPre : List Nat
  scriptAddrPre : List Nat
  hrp : List Nat

/-! ## ExtractDestination -/

open TxoutType in
/-- `ExtractDestination`: renders the script as addresses appended to
`addressRet`, returning the C++ boolean alongside the final list. -/
def ExtractDestination (scriptPubKey : List Nat) (params : Params)
    (addressRet : List (List Nat)) : Bool × List (List Nat) :=
  let r := Solver scriptPubKey
  let vSolutions := r.2
  match r.1 with
  | PUBKEY =>
    if (vSolutions.getD 0 []).length = 0 then (false, addressRet)
    else
      (true, addressRet ++ [encodeBase58Check (params.pubkeyAddrPre ++ vSolutions.getD 0 [])])
  | PUBKEYHASH =>
    (true, addressRet ++ [encodeBase58Check (params.pubkeyAddrPre ++ (vSolutions.getD 0 []).take 20)])
  | SCRIPTHASH =>
    (true, addressRet ++ [encodeBase58Check (params.scriptAddrPre ++ (vSolutions.getD 0 []).take 20)])
  | WITNESS_V0_KEYHASH =>
    let data := [0] ++ (ConvertBits 8 5 true (vSolutions.getD 0 [])).getD []
    (true, addressRet ++ [bech32Encode .BECH32 params.hrp data])
  | WITNESS_V0_SCRIPTHASH =>
    let data := [0] ++ (ConvertBits 8 5 true (vSolutions.getD 0 [])).getD []
    (true, addressRet ++ [bech32Encode .BECH32 params.hrp data])
  | WITNESS_V1_TAPROOT =>
    let data := [1] ++ (ConvertBits 8 5 true (vSolutions.getD 0 [])).getD []
    (true, addressRet ++ [bech32Encode .BECH32M params.hrp data])
  | WITNESS_UNKNOWN =>
    let version := (vSolutions.getD 0 []).getD 0 0
    let length := (vSolutions.getD 1 []).length
    if version < 1 ∨ version > 16 ∨ length < 2 ∨ length > 40 then (false, addressRet)
    else
      let data := [version] ++ (ConvertBits 8 5 true ((vSolutions.getD 1 []).take length)).getD []
      (true, addressRet ++ [bech32Encode .BECH32M params.hrp data])
  | MULTISIG =>
    -- one address per pubkey solution (indices 1 .. size-2), skipping empties;
    -- falls through to `return false` whether or not addresses were emitted
    let addrs := ((vSolutions.drop 1).take (vSolutions.length - 1 - 1)).filterMap
      (fun pk => if pk.length = 0 then none
                 else some (encodeBase58Check (params.pubkeyAddrPre ++ pk)))
    (false, addressRet ++ addrs)
  | _ => (false, addressRet)

/-! ## DecodeDestination / IsValid -/

/-- `std::vector::insert` at an absolute index. -/
def insertAtL (i : Nat) (xs l : List Nat) : List Nat := l.take i ++ xs ++ l.drop i

def strOfBytes (l : List Nat) : String := String.mk (l.map Char.ofNat)

/-- `DecodeDestination`: parses an address string against `params`,
appending the reconstructed output script to `script0` on success.
Returns `(ok, script, error_str)`. -/
def DecodeDestination (str : List Nat) (script0 : List Nat) (params : Params) :
    Bool × List Nat × String :=
  if (toLowerL (str.take params.hrp.length) == params.hrp) = false then
    match decodeBase58Check str 21 with
    | some data =>
      if data.length = 20 + params.pubkeyAddrPre.length
          ∧ params.pubkeyAddrPre.isPrefixOf data then
        (true, insertAtL 3 (data.drop params.pubkeyAddrPre.length)
          (script0 ++ [OP_DUP, OP_HASH160, EncodePushBytes_N 20]) ++ [OP_EQUALVERIFY, OP_CHECKSIG], "")
      else if data.length = 20 + params.scriptAddrPre.length
          ∧ params.scriptAddrPre.isPrefixOf data then
        (true, insertAtL 2 (data.drop params.scriptAddrPre.length)
          (script0 ++ [OP_HASH160, EncodePushBytes_N 20]) ++ [OP_EQUAL], "")
      else if (params.scriptAddrPre.length ≤ data.length ∧ params.scriptAddrPre.isPrefixOf data)
          ∨ (params.pubkeyAddrPre.length ≤ data.length ∧ params.pubkeyAddrPre.isPrefixOf data) then
        (false, script0, "Invalid length for Base58 address (P2PKH or P2SH)")
      else (false, script0, "Invalid or unsupported Base58-encoded address.")
    | none =>
      if (decodeBase58 str 100).isNone then
        (false, script0, "Invalid or unsupported Segwit (Bech32) or Base58 encoding.")
      else
        (false, script0, "Invalid checksum or length of Base58 address (P2PKH or P2SH)")
  else
    if (bech32Decode str).encoding = .BECH32 ∨ (bech32Decode str).encoding = .BECH32M then
      if (bech32Decode str).data.isEmpty then (false, script0, "Empty Bech32 data section")
      else if (bech32Decode str).hrp ≠ params.hrp then
        (false, script0,
          "Invalid or unsupported prefix for Segwit (Bech32) address (expected "
            ++ strOfBytes params.hrp ++ ", got " ++ strOfBytes (bech32Decode str).hrp ++ ").")
      else
        if (bech32Decode str).data.getD 0 0 = 0 ∧ (bech32Decode str).encoding ≠ .BECH32 then
          (false, script0, "Version 0 witness address must use Bech32 checksum")
        else if (bech32Decode str).data.getD 0 0 ≠ 0
            ∧ (bech32Decode str).encoding ≠ .BECH32M then
          (false, script0, "Version 1+ witness address must use Bech32m checksum")
        else
          match ConvertBits 5 8 false ((bech32Decode str).data.drop 1) with
          | some data =>
            if (bech32Decode str).data.getD 0 0 = 0 then
              if data.length = 20 then
                (true, insertAtL 2 data (script0 ++ [OP_0, EncodePushBytes_N 20]), "")
              else if data.length = 32 then
                (true, insertAtL 2 data (script0 ++ [OP_0, EncodePushBytes_N 32]), "")
              else
                (false, script0, "Invalid Bech32 v0 address program size ("
                  ++ toString data.length ++ " "
                  ++ (if data.length = 1 then "byte" else "bytes") ++ "), per BIP141")
            else if (bech32Decode str).data.getD 0 0 = 1
                ∧ data.length = WITNESS_V1_TAPROOT_SIZE then
              (true, insertAtL 2 data (script0 ++ [OP_1, EncodePushBytes_N 32]), "")
            else if (bech32Decode str).data.getD 0 0 > 16 then
              (false, script0, "Invalid Bech32 address witness version")
            else if data.length < 2 ∨ data.length > BECH32_WITNESS_PROG_MAX_LEN then
              (false, script0, "Invalid Bech32 address program size ("
                ++ toString data.length ++ " "
                ++ (if data.length = 1 then "byte" else "bytes") ++ ")")
            else
              (true, insertAtL 1 data (script0 ++ [EncodeOP_N ((bech32Decode str).data.getD 0 0)]), "")
          | none => (false, script0, "Invalid padding in Bech32 data section")
    else (false, script0, "Invalid address")

/-- `IsValid`: boolean address validity, mirroring `DecodeDestination`. -/
def IsValid (str : List Nat) (params : Params) : Bool :=
  if str.isEmpty then false
  else
    if (toLowerL (str.take params.hrp.length) == params.hrp) = false then
      match decodeBase58Check str 21 with
      | some data =>
        if data.length = 20 + params.pubkeyAddrPre.length
            ∧ params.pubkeyAddrPre.isPrefixOf data then true
        else if data.length = 20 + params.scriptAddrPre.length
            ∧ params.scriptAddrPre.isPrefixOf data then true
        else false
      | none => false
    else
      if (bech32Decode str).encoding = .BECH32 ∨ (bech32Decode str).encoding = .BECH32M then
        if (bech32Decode str).data.isEmpty then false
        else if (bech32Decode str).hrp ≠ params.hrp then false
        else
          if (bech32Decode str).data.getD 0 0 = 0
              ∧ (bech32Decode str).encoding ≠ .BECH32 then false
          else if (bech32Decode str).data.getD 0 0 ≠ 0
              ∧ (bech32Decode str).encoding ≠ .BECH32M then false
          else
            match ConvertBits 5 8 false ((bech32Decode str).data.drop 1) with
            | some data =>
              if (bech32Decode str).data.getD 0 0 = 0 then
                if data.length = 20 ∨ data.length = 32 then true else false
              else if (bech32Decode str).data.getD 0 0 = 1
                  ∧ data.length = WITNESS_V1_TAPROOT_SIZE then true
              else if (bech32Decode str).data.getD 0 0 > 16 ∨ data.length < 2
                  ∨ data.length > BECH32_WITNESS_PROG_MAX_LEN then false
              else true
            | none => false
      else false

/-! ## Helper lemmas -/

theorem validSize_length {pk : List Nat} (h : ValidSize pk = true) :
    pk.length = 33 ∨ pk.length = 65 := by
  simp only [ValidSize, Bool.and_eq_true, decide_eq_true_eq] at h
  obtain ⟨h1, h2⟩ := h
  unfold GetLen at h2
  split at h2
  · left
    omega
  · split at h2
    · right
      omega
    · omega

theorem validSize_pos {pk : List Nat} (h : ValidSize pk = true) : pk ≠ [] := by
  rcases validSize_length h with h' | h' <;>
    (intro he; rw [he] at h'; simp at h')

/-! ## Claim C4 -/

/-- C4: With `pad = false` and every input symbol below `2^from_bits`,
`ConvertBits` fails exactly when, after the loop consumes the whole input,
the buffered bit count is at least `from_bits` or the residual
`(acc << (to_bits - count)) & mask(to_bits)` is nonzero; otherwise it
succeeds returning precisely the symbols emitted by the loop. -/
theorem convertBits_nopad_fail_iff (fb tb : Nat) (input : List Nat)
    (hin : ∀ v ∈ input, v < 2 ^ fb) :
    (ConvertBits fb tb false input = none ↔
      fb ≤ (cbLoop fb tb (2 ^ (fb + tb - 1) - 1) (2 ^ tb - 1) input 0 0).2.1
        ∨ ((cbLoop fb tb (2 ^ (fb + tb - 1) - 1) (2 ^ tb - 1) input 0 0).1
            <<< (tb - (cbLoop fb tb (2 ^ (fb + tb - 1) - 1) (2 ^ tb - 1) input 0 0).2.1))
            &&& (2 ^ tb - 1) ≠ 0)
    ∧ (ConvertBits fb tb false input ≠ none →
      ConvertBits fb tb false input
        = some (cbLoop fb tb (2 ^ (fb + tb - 1) - 1) (2 ^ tb - 1) input 0 0).2.2) := by
  have key : ConvertBits fb tb false input =
      if fb ≤ (cbLoop fb tb (2 ^ (fb + tb - 1) - 1) (2 ^ tb - 1) input 0 0).2.1
        ∨ ((cbLoop fb tb (2 ^ (fb + tb - 1) - 1) (2 ^ tb - 1) input 0 0).1
            <<< (tb - (cbLoop fb tb (2 ^ (fb + tb - 1) - 1) (2 ^ tb - 1) input 0 0).2.1))
            &&& (2 ^ tb - 1) ≠ 0
      then none
      else some (cbLoop fb tb (2 ^ (fb + tb - 1) - 1) (2 ^ tb - 1) input 0 0).2.2 := by
    simp only [ConvertBits, Bool.false_eq_true, if_false]
  rw [key]
  constructor
  · split
    · simp_all
    · simp_all
  · split
    · intro h
      exact absurd rfl h
    · intro _
      rfl

/-- Witness for C4 at a concrete input. -/
theorem convertBits_nopad_fail_iff_witness :
    (∀ v ∈ [3, 7, 1], v < 2 ^ 5)
    ∧ ((ConvertBits 5 8 false [3, 7, 1] = none ↔
      5 ≤ (cbLoop 5 8 (2 ^ (5 + 8 - 1) - 1) (2 ^ 8 - 1) [3, 7, 1] 0 0).2.1
        ∨ ((cbLoop 5 8 (2 ^ (5 + 8 - 1) - 1) (2 ^ 8 - 1) [3, 7, 1] 0 0).1
            <<< (8 - (cbLoop 5 8 (2 ^ (5 + 8 - 1) - 1) (2 ^ 8 - 1) [3, 7, 1] 0 0).2.1))
            &&& (2 ^ 8 - 1) ≠ 0)
    ∧ (ConvertBits 5 8 false [3, 7, 1] ≠ none →
      ConvertBits 5 8 false [3, 7, 1]
        = some (cbLoop 5 8 (2 ^ (5 + 8 - 1) - 1) (2 ^ 8 - 1) [3, 7, 1] 0 0).2.2)) :=
  ⟨by decide, convertBits_nopad_fail_iff 5 8 [3, 7, 1] (by decide)⟩

/-! ## Solver inversion lemmas -/

theorem solver_pubkey_inv {s : List Nat} (h : (Solver s).1 = TxoutType.PUBKEY) :
    ∃ pk, MatchPayToPubkey s = some pk ∧ Solver s = (TxoutType.PUBKEY, [pk]) := by
  unfold Solver at h ⊢
  split at h
  · simp at h
  · rename_i h1
    rw [if_neg h1]
    split at h
    · rename_i wv wp hw
      rw [hw] at *
      split at h <;> try simp at h
      split at h <;> try simp at h
      split at h <;> try simp at h
      split at h <;> simp at h
    · rename_i hw
      rw [hw] at *
      split at h
      · simp at h
      · rename_i h2
        rw [if_neg h2]
        split at h
        · rename_i pk hpk
          rw [hpk]
          exact ⟨pk, rfl, rfl⟩
        · rename_i hpk
          rw [hpk] at *
          split at h
          · simp at h
          · split at h <;> simp at h

theorem solver_multisig_inv {s : List Nat} (h : (Solver s).1 = TxoutType.MULTISIG) :
    ∃ m keys, MatchMultisig s = some (m, keys)
      ∧ Solver s = (TxoutType.MULTISIG, [[m]] ++ keys ++ [[keys.length]]) := by
  unfold Solver at h ⊢
  split at h
  · simp at h
  · rename_i h1
    rw [if_neg h1]
    split at h
    · rename_i wv wp hw
      rw [hw] at *
      split at h <;> try simp at h
      split at h <;> try simp at h
      split at h <;> try simp at h
      split at h <;> simp at h
    · rename_i hw
      rw [hw] at *
      split at h
      · simp at h
      · rename_i h2
        rw [if_neg h2]
        split at h
        · simp at h
        · rename_i hpk
          rw [hpk] at *
          split at h
          · simp at h
          · rename_i hph
            rw [hph] at *
            split at h
            · rename_i m keys hms
              rw [hms]
              exact ⟨m, keys, rfl, rfl⟩
            · simp at h

theorem matchPayToPubkey_validSize {s pk : List Nat}
    (h : MatchPayToPubkey s = some pk) : ValidSize pk = true := by
  unfold MatchPayToPubkey at h
  split at h
  · split at h
    · rename_i hv
      simp only [Option.some.injEq] at h
      rw [← h]
      exact hv
    · simp at h
  · split at h
    · split at h
      · rename_i hv
        simp only [Option.some.injEq] at h
        rw [← h]
        exact hv
      · simp at h
    · simp at h

theorem msLoop_validSize {fuel : Nat} {s : List Nat} {acc : List (List Nat)} {opn : Nat}
    {pks : List (List Nat)} {rest2 : List Nat}
    (hacc : ∀ pk ∈ acc, ValidSize pk = true)
    (h : msLoop fuel s acc = some (opn, pks, rest2)) :
    ∀ pk ∈ pks, ValidSize pk = true := by
  induction fuel generalizing s acc with
  | zero => simp [msLoop] at h
  | succ f ih =>
    rw [msLoop] at h
    match hget : GetScriptOp s with
    | none =>
      rw [hget] at h
      simp at h
    | some (op, data, rest) =>
      simp only [hget] at h
      by_cases hvs : ValidSize data = true
      · rw [if_pos hvs] at h
        refine ih ?_ h
        intro pk hpk
        rcases List.mem_append.1 hpk with h' | h'
        · exact hacc pk h'
        · simp only [List.mem_singleton] at h'
          rw [h']
          exact hvs
      · rw [if_neg hvs] at h
        simp only [Option.some.injEq, Prod.mk.injEq] at h
        obtain ⟨-, h2, -⟩ := h
        rw [← h2]
        exact hacc

theorem matchMultisig_validSize {s : List Nat} {m : Nat} {keys : List (List Nat)}
    (h : MatchMultisig s = some (m, keys)) :
    (∀ pk ∈ keys, ValidSize pk = true) ∧ 1 ≤ m ∧ m ≤ keys.length ∧ keys.length ≤ 16 := by
  unfold MatchMultisig at h
  split at h
  · simp at h
  · split at h
    · simp at h
    · rename_i op1 d1 rest hget
      split at h
      · simp at h
      · rename_i hsm
        split at h
        · simp at h
        · rename_i opn pks rest2 hloop
          split at h
          · simp at h
          · rename_i hsmn
            split at h
            · simp at h
            · rename_i hlen
              split at h
              · simp only [Option.some.injEq, Prod.mk.injEq] at h
                obtain ⟨hm, hk⟩ := h
                subst hm
                subst hk
                push_neg at hlen
                obtain ⟨hlen1, hlen2⟩ := hlen
                simp only [not_not] at hsm hsmn
                simp only [IsSmallInteger, Bool.and_eq_true, decide_eq_true_eq,
                  OP_1, OP_16] at hsm hsmn
                refine ⟨msLoop_validSize (by intro pk hpk; simp at hpk) hloop, ?_⟩
                unfold DecodeOP_N OP_1 OP_0 at *
                rw [if_neg (by omega), if_neg (by omega)] at *
                omega
              · simp at h

theorem filterMap_no_empty (f : List Nat → List Nat) (keys : List (List Nat))
    (h : ∀ pk ∈ keys, pk.length ≠ 0) :
    keys.filterMap (fun pk => if pk.length = 0 then none else some (f pk)) = keys.map f := by
  induction keys with
  | nil => rfl
  | cons a t ih =>
    have ha : a.length ≠ 0 := h a (by simp)
    simp only [List.filterMap_cons, if_neg ha, List.map_cons]
    rw [ih (fun pk hpk => h pk (by simp [hpk]))]

theorem extract_multisig_eq {s : List Nat} {m : Nat} {keys : List (List Nat)}
    (params : Params) (addr0 : List (List Nat))
    (hsol : Solver s = (TxoutType.MULTISIG, [[m]] ++ keys ++ [[keys.length]]))
    (hne : ∀ pk ∈ keys, pk.length ≠ 0) :
    ExtractDestination s params addr0
      = (false, addr0 ++ keys.map (fun pk => encodeBase58Check (params.pubkeyAddrPre ++ pk))) := by
  unfold ExtractDestination
  rw [hsol]
  simp only [List.cons_append, List.nil_append, List.drop_succ_cons, List.drop_zero,
    List.length_cons, List.length_append]
  have harith : keys.length + (([] : List (List Nat)).length + 1) + 1 - 1 - 1 = keys.length := by
    simp
  rw [harith, List.take_left, filterMap_no_empty _ _ hne]

/-! ## Claim C10 -/

/-- C10: Every pubkey payload Solver returns is 33 or 65 bytes (hence
non-empty), so in `ExtractDestination` the PUBKEY emptiness guard never
fires (PUBKEY scripts yield `true` with exactly one address) and the
MULTISIG empty-pubkey skip never fires (an n-key multisig appends exactly
n addresses). -/
theorem solver_pubkeys_wellsized (s : List Nat) (params : Params) (addr0 : List (List Nat)) :
    ((Solver s).1 = TxoutType.PUBKEY →
      ∃ pk, Solver s = (TxoutType.PUBKEY, [pk]) ∧ (pk.length = 33 ∨ pk.length = 65)
        ∧ ExtractDestination s params addr0
            = (true, addr0 ++ [encodeBase58Check (params.pubkeyAddrPre ++ pk)]))
    ∧ ((Solver s).1 = TxoutType.MULTISIG →
      ∃ m keys, Solver s = (TxoutType.MULTISIG, [[m]] ++ keys ++ [[keys.length]])
        ∧ (∀ pk ∈ keys, pk.length = 33 ∨ pk.length = 65)
        ∧ (ExtractDestination s params addr0).2.length = addr0.length + keys.length) := by
  constructor
  · intro h
    obtain ⟨pk, hmatch, hsol⟩ := solver_pubkey_inv h
    have hvs := matchPayToPubkey_validSize hmatch
    have hlen := validSize_length hvs
    refine ⟨pk, hsol, hlen, ?_⟩
    unfold ExtractDestination
    rw [hsol]
    simp only [List.getD_cons_zero]
    rw [if_neg (by omega)]
  · intro h
    obtain ⟨m, keys, hmatch, hsol⟩ := solver_multisig_inv h
    have hall := (matchMultisig_validSize hmatch).1
    have hlens : ∀ pk ∈ keys, pk.length = 33 ∨ pk.length = 65 :=
      fun pk hpk => validSize_length (hall pk hpk)
    refine ⟨m, keys, hsol, hlens, ?_⟩
    rw [extract_multisig_eq params addr0 hsol
      (fun pk hpk => by rcases hlens pk hpk with h' | h' <;> omega)]
    simp

/-- Witness for C10: a P2PK script and a 1-of-1 multisig script. -/
theorem solver_pubkeys_wellsized_witness :
    ((Solver ([33] ++ (2 :: List.replicate 32 0) ++ [OP_CHECKSIG])).1 = TxoutType.PUBKEY
      ∧ ∃ pk, Solver ([33] ++ (2 :: List.replicate 32 0) ++ [OP_CHECKSIG])
          = (TxoutType.PUBKEY, [pk]) ∧ (pk.length = 33 ∨ pk.length = 65)
        ∧ ExtractDestination ([33] ++ (2 :: List.replicate 32 0) ++ [OP_CHECKSIG])
            ⟨[0], [5], [98, 99]⟩ []
            = (true, [] ++ [encodeBase58Check ([0] ++ pk)]))
    ∧ ((Solver ([OP_1, 33] ++ (2 :: List.replicate 32 0) ++ [OP_1, OP_CHECKMULTISIG])).1
        = TxoutType.MULTISIG
      ∧ ∃ m keys, Solver ([OP_1, 33] ++ (2 :: List.replicate 32 0) ++ [OP_1, OP_CHECKMULTISIG])
          = (TxoutType.MULTISIG, [[m]] ++ keys ++ [[keys.length]])
        ∧ (∀ pk ∈ keys, pk.length = 33 ∨ pk.length = 65)
        ∧ (ExtractDestination ([OP_1, 33] ++ (2 :: List.replicate 32 0) ++ [OP_1, OP_CHECKMULTISIG])
            ⟨[0], [5], [98, 99]⟩ []).2.length = ([] : List (List Nat)).length + keys.length) := by
  have h1 : (Solver ([33] ++ (2 :: List.replicate 32 0) ++ [OP_CHECKSIG])).1
      = TxoutType.PUBKEY := by decide
  have h2 : (Solver ([OP_1, 33] ++ (2 :: List.replicate 32 0) ++ [OP_1, OP_CHECKMULTISIG])).1
      = TxoutType.MULTISIG := by decide
  exact ⟨⟨h1, (solver_pubkeys_wellsized _ ⟨[0], [5], [98, 99]⟩ []).1 h1⟩,
         ⟨h2, (solver_pubkeys_wellsized _ ⟨[0], [5], [98, 99]⟩ []).2 h2⟩⟩

/-! ## Claim C6 -/

/-- C6: For every MULTISIG-classified script, `ExtractDestination` appends
one Base58Check address (`PUBKEY_ADDRESS` prefix followed by the full
pubkey bytes) per embedded pubkey, and returns `false` even though at
least one address was appended. -/
theorem extract_multisig_falsy (s : List Nat) (params : Params) (addr0 : List (List Nat))
    (h : (Solver s).1 = TxoutType.MULTISIG) :
    ∃ keys : List (List Nat), 1 ≤ keys.length
      ∧ ExtractDestination s params addr0
          = (false, addr0 ++ keys.map (fun pk => encodeBase58Check (params.pubkeyAddrPre ++ pk))) := by
  obtain ⟨m, keys, hmatch, hsol⟩ := solver_multisig_inv h
  obtain ⟨hall, hm1, hmn, hn16⟩ := matchMultisig_validSize hmatch
  refine ⟨keys, by omega, ?_⟩
  exact extract_multisig_eq params addr0 hsol
    (fun pk hpk => by rcases validSize_length (hall pk hpk) with h' | h' <;> omega)

/-- Witness for C6 at a concrete 1-of-1 multisig script. -/
theorem extract_multisig_falsy_witness :
    ∃ keys : List (List Nat), 1 ≤ keys.length
      ∧ ExtractDestination ([OP_1, 33] ++ (2 :: List.replicate 32 0) ++ [OP_1, OP_CHECKMULTISIG])
          ⟨[0], [5], [98, 99]⟩ []
          = (false, [] ++ keys.map (fun pk => encodeBase58Check ([0] ++ pk))) :=
  extract_multisig_falsy ([OP_1, 33] ++ (2 :: List.replicate 32 0) ++ [OP_1, OP_CHECKMULTISIG])
    ⟨[0], [5], [98, 99]⟩ [] (by decide)

/-! ## Claim C8 -/

/-- C8: A string that reaches the Bech32 branch and decodes as BECH32M with
nonempty data, matching HRP and witness version 0 is rejected with the
exact error `"Version 0 witness address must use Bech32 checksum"` and no
script bytes are written. -/
theorem decode_bech32m_v0_rejected (str script0 : List Nat) (params : Params)
    (hreach : toLowerL (str.take params.hrp.length) = params.hrp)
    (henc : (bech32Decode str).encoding = Bech32Enc.BECH32M)
    (hne : (bech32Decode str).data ≠ [])
    (hhrp : (bech32Decode str).hrp = params.hrp)
    (hv : (bech32Decode str).data.getD 0 0 = 0) :
    DecodeDestination str script0 params
      = (false, script0, "Version 0 witness address must use Bech32 checksum") := by
  have hB : (toLowerL (str.take params.hrp.length) == params.hrp) = true := by
    simp [hreach]
  unfold DecodeDestination
  rw [hB]
  simp only [Bool.true_eq_false, if_false, henc, hv, hhrp]
  simp [List.isEmpty_iff, hne]

set_option maxRecDepth 20000 in
/-- Witness for C8 at a concrete Bech32m-encoded version-0 string. -/
theorem decode_bech32m_v0_rejected_witness :
    DecodeDestination [98, 99, 49, 113, 113, 113, 113, 113, 113, 113, 116, 115, 48, 102, 103, 107]
        [] ⟨[0], [5], [98, 99]⟩
      = (false, [], "Version 0 witness address must use Bech32 checksum") :=
  decode_bech32m_v0_rejected _ _ _ (by decide) (by decide) (by decide) (by decide) (by decide)

/-! ## Claim C7 -/

/-- C7: A Bech32m string with matching HRP whose witness version `v`
satisfies `2 ≤ v ≤ 16` (or `v = 1` with program size ≠ 32) and whose
remaining symbols convert (5→8, no pad) to a program of 2..40 bytes decodes
to `true` with script exactly `EncodeOP_N v` followed immediately by the
program bytes — no length-push opcode in between. -/
theorem decode_bech32m_high_version (str : List Nat) (params : Params) (v : Nat) (p : List Nat)
    (hreach : toLowerL (str.take params.hrp.length) = params.hrp)
    (henc : (bech32Decode str).encoding = Bech32Enc.BECH32M)
    (hhrp : (bech32Decode str).hrp = params.hrp)
    (hv : (bech32Decode str).data.getD 0 0 = v)
    (hvr : 2 ≤ v ∧ v ≤ 16 ∨ v = 1 ∧ p.length ≠ 32)
    (hcb : ConvertBits 5 8 false ((bech32Decode str).data.drop 1) = some p)
    (hp2 : 2 ≤ p.length) (hp40 : p.length ≤ 40) :
    DecodeDestination str [] params = (true, EncodeOP_N v :: p, "")
      ∧ (DecodeDestination str [] params).2.1.length = 1 + p.length := by
  have hvpos : v ≠ 0 := by omega
  have hne : (bech32Decode str).data ≠ [] := by
    intro h0
    rw [h0] at hv
    simp at hv
    omega
  have hB : (toLowerL (str.take params.hrp.length) == params.hrp) = true := by
    simp [hreach]
  have hmain : DecodeDestination str [] params = (true, EncodeOP_N v :: p, "") := by
    unfold DecodeDestination
    rw [hB]
    simp only [Bool.true_eq_false, if_false, henc, hv, hhrp, hcb]
    have h16 : ¬ v > 16 := by omega
    have hlen : ¬ (p.length < 2 ∨ p.length > BECH32_WITNESS_PROG_MAX_LEN) := by
      unfold BECH32_WITNESS_PROG_MAX_LEN
      omega
    have hv1 : ¬ (v = 1 ∧ p.length = WITNESS_V1_TAPROOT_SIZE) := by
      unfold WITNESS_V1_TAPROOT_SIZE
      rintro ⟨ha, hb⟩
      rcases hvr with h' | h'
      · omega
      · exact h'.2 hb
    simp [List.isEmpty_iff, hne, hvpos, h16, hlen, hv1, insertAtL]
  refine ⟨hmain, ?_⟩
  rw [hmain]
  simp
  omega

set_option maxRecDepth 20000 in
/-- Witness for C7 at a concrete Bech32m version-2 string. -/
theorem decode_bech32m_high_version_witness :
    DecodeDestination [98, 99, 49, 122, 122, 121, 51, 113, 120, 114, 99, 48, 101, 48]
        [] ⟨[0], [5], [98, 99]⟩
      = (true, EncodeOP_N 2 :: [17, 34], "")
      ∧ (DecodeDestination [98, 99, 49, 122, 122, 121, 51, 113, 120, 114, 99, 48, 101, 48]
          [] ⟨[0], [5], [98, 99]⟩).2.1.length = 1 + ([17, 34] : List Nat).length :=
  decode_bech32m_high_version _ _ 2 [17, 34] (by decide) (by decide) (by decide) (by decide)
    (Or.inl (by omega)) (by decide) (by decide) (by decide)

/-! ## Claim C9 -/

theorem strApp_ne_left (s t : String) (h : s ≠ "") : s ++ t ≠ "" := by
  intro he
  apply h
  have hlen := congrArg String.length he
  rw [String.length_append] at hlen
  have hz : s.length = 0 := by
    have : String.length "" = 0 := rfl
    omega
  have hd : s.data = [] := List.eq_nil_of_length_eq_zero hz
  cases s
  simp_all

set_option maxHeartbeats 1000000 in
/-- Every result of `DecodeDestination` either has `true` status, or leaves
the script untouched with a non-empty diagnostic. -/
theorem decode_destination_result_cases (str script0 : List Nat) (params : Params) :
    (DecodeDestination str script0 params).1 = true
    ∨ ((DecodeDestination str script0 params).2.1 = script0
        ∧ (DecodeDestination str script0 params).2.2 ≠ "") := by
  unfold DecodeDestination
  cases hIsB : toLowerL (str.take params.hrp.length) == params.hrp
  all_goals rcases hB58 : decodeBase58Check str 21 with - | data
  all_goals rcases hdec : bech32Decode str with ⟨enc, bhrp, bdata⟩
  all_goals rcases hcb : ConvertBits 5 8 false (bdata.drop 1) with - | prog
  all_goals simp only [eq_self_iff_true, if_true, Bool.true_eq_false,
    Bool.false_eq_true, if_false]
  all_goals try dsimp only
  all_goals repeat' split
  all_goals try dsimp only
  all_goals first
    | exact Or.inl rfl
    | (refine Or.inr ⟨rfl, ?_⟩
       repeat' apply strApp_ne_left
       all_goals decide)

/-- C9: `DecodeDestination` is atomic on failure: whenever it returns
`false` the script out-parameter is left exactly as it was on entry and the
error string is a non-empty diagnostic; script bytes are written only on
paths returning `true`. -/
theorem decode_destination_atomic (str script0 : List Nat) (params : Params)
    (h : (DecodeDestination str script0 params).1 = false) :
    (DecodeDestination str script0 params).2.1 = script0
      ∧ (DecodeDestination str script0 params).2.2 ≠ "" := by
  rcases decode_destination_result_cases str script0 params with h' | h'
  · rw [h] at h'
    exact absurd h' (by simp)
  · exact h'

set_option maxRecDepth 20000 in
/-- Witness for C9 at a concrete failing input. -/
theorem decode_destination_atomic_witness :
    (DecodeDestination [120] [7] ⟨[0], [5], [98, 99]⟩).2.1 = [7]
      ∧ (DecodeDestination [120] [7] ⟨[0], [5], [98, 99]⟩).2.2 ≠ "" :=
  decode_destination_atomic [120] [7] ⟨[0], [5], [98, 99]⟩ (by decide)

/-! ## Claim C2 -/

set_option maxHeartbeats 1000000 in
/-- C2: `IsValid` and `DecodeDestination` accept exactly the same strings:
for every string (including the empty string) and every parameter set, the
boolean verdict of `IsValid` equals the success status of
`DecodeDestination`. -/
theorem isValid_iff_decode (str : List Nat) (params : Params) (script0 : List Nat) :
    IsValid str params = (DecodeDestination str script0 params).1 := by
  unfold IsValid DecodeDestination
  by_cases hemp : str.isEmpty = true
  · obtain rfl : str = [] := by
      cases str
      · rfl
      · simp [List.isEmpty] at hemp
    rw [if_pos hemp]
    cases hIsB : toLowerL (List.take params.hrp.length []) == params.hrp
    · rw [show decodeBase58Check [] 21 = none from by decide]
      simp only [Bool.false_eq_true, eq_self_iff_true, if_true, Bool.true_eq_false, if_false]
      rw [show (decodeBase58 [] 100).isNone = false from by decide]
      simp
    · rw [show bech32Decode [] = ⟨Bech32Enc.INVALID, [], []⟩ from by decide]
      simp only [eq_self_iff_true, if_true, Bool.true_eq_false, if_false]
      simp
  · rw [if_neg hemp]
    cases hIsB : toLowerL (str.take params.hrp.length) == params.hrp
    all_goals rcases hB58 : decodeBase58Check str 21 with - | data
    all_goals rcases hdec : bech32Decode str with ⟨enc, bhrp, bdata⟩
    all_goals rcases hcb : ConvertBits 5 8 false (bdata.drop 1) with - | prog
    all_goals simp only [eq_self_iff_true, if_true, Bool.true_eq_false,
      Bool.false_eq_true, if_false]
    all_goals try dsimp only
    all_goals repeat' (first | contradiction | split)
    all_goals try dsimp only
    all_goals first | rfl | omega

/-! ## GetScriptOp structural lemmas (towards C5) -/

theorem getScriptOp_opcode {op : Nat} (r : List Nat) (h : 78 < op) :
    GetScriptOp (op :: r) = some (op, [], r) := by
  simp only [GetScriptOp]
  rw [if_neg (by omega), if_neg (by simp [OP_PUSHDATA1]; omega),
    if_neg (by simp [OP_PUSHDATA2]; omega), if_neg (by simp [OP_PUSHDATA4]; omega)]

theorem getScriptOp_inv_opcode {s : List Nat} {op : Nat} {d r : List Nat}
    (h : GetScriptOp s = some (op, d, r)) (hop : 78 < op) : s = op :: r ∧ d = [] := by
  match s with
  | [] => simp [GetScriptOp] at h
  | b :: t =>
    simp only [GetScriptOp] at h
    split at h
    · rename_i hb
      split at h
      · simp only [Option.some.injEq, Prod.mk.injEq] at h
        omega
      · simp at h
    · rename_i hb
      split at h
      · rename_i hb1
        match t with
        | [] => simp at h
        | n :: t2 =>
          dsimp only at h
          split at h
          · simp only [Option.some.injEq, Prod.mk.injEq] at h
            simp only [OP_PUSHDATA1] at hb1
            omega
          · simp at h
      · split at h
        · rename_i hb2
          match t with
          | [] => simp at h
          | [a] => simp at h
          | a :: c :: t2 =>
            dsimp only at h
            split at h
            · simp only [Option.some.injEq, Prod.mk.injEq] at h
              simp only [OP_PUSHDATA2] at hb2
              omega
            · simp at h
        · split at h
          · rename_i hb4
            match t with
            | [] => simp at h
            | [a] => simp at h
            | [a, c] => simp at h
            | [a, c, d'] => simp at h
            | a :: c :: d' :: e :: t2 =>
              dsimp only at h
              split at h
              · simp only [Option.some.injEq, Prod.mk.injEq] at h
                simp only [OP_PUSHDATA4] at hb4
                omega
              · simp at h
          · simp only [Option.some.injEq, Prod.mk.injEq] at h
            obtain ⟨h1, h2, h3⟩ := h
            subst h1
            subst h2
            subst h3
            exact ⟨rfl, rfl⟩

theorem getScriptOp_extend {e : List Nat} {op : Nat} {d rest : List Nat} (t : List Nat)
    (h : GetScriptOp e = some (op, d, rest)) :
    GetScriptOp (e ++ t) = some (op, d, rest ++ t) := by
  match e with
  | [] => simp [GetScriptOp] at h
  | b :: r =>
    simp only [List.cons_append, GetScriptOp] at h ⊢
    split at h
    · rename_i hb
      rw [if_pos hb]
      split at h
      · rename_i hlen
        simp only [Option.some.injEq, Prod.mk.injEq] at h
        obtain ⟨h1, h2, h3⟩ := h
        subst h1
        rw [if_pos (by simp only [List.length_append]; omega)]
        rw [List.take_append_of_le_length hlen, List.drop_append_eq_append_drop]
        rw [show b - r.length = 0 from by omega]
        simp only [List.drop_zero, Option.some.injEq, Prod.mk.injEq]
        refine ⟨by trivial, h2, by rw [← h3]⟩
      · simp at h
    · rename_i hb
      rw [if_neg hb]
      split at h
      · rename_i hb1
        rw [if_pos hb1]
        match r with
        | [] => simp at h
        | n :: r2 =>
          dsimp only [List.cons_append] at h ⊢
          split at h
          · rename_i hlen
            simp only [Option.some.injEq, Prod.mk.injEq] at h
            obtain ⟨h1, h2, h3⟩ := h
            subst h1
            rw [if_pos (by simp only [List.length_append]; omega)]
            rw [List.take_append_of_le_length hlen, List.drop_append_eq_append_drop]
            rw [show n - r2.length = 0 from by omega]
            simp only [List.drop_zero, Option.some.injEq, Prod.mk.injEq]
            refine ⟨by trivial, h2, by rw [← h3]⟩
          · simp at h
      · rename_i hb1
        rw [if_neg hb1]
        split at h
        · rename_i hb2
          rw [if_pos hb2]
          match r with
          | [] => simp at h
          | [a] => simp at h
          | a :: c :: r2 =>
            dsimp only [List.cons_append] at h ⊢
            split at h
            · rename_i hlen
              simp only [Option.some.injEq, Prod.mk.injEq] at h
              obtain ⟨h1, h2, h3⟩ := h
              subst h1
              rw [if_pos (by simp only [List.length_append]; omega)]
              rw [List.take_append_of_le_length hlen, List.drop_append_eq_append_drop]
              rw [show a + 256 * c - r2.length = 0 from by omega]
              simp only [List.drop_zero, Option.some.injEq, Prod.mk.injEq]
              refine ⟨by trivial, h2, by rw [← h3]⟩
            · simp at h
        · rename_i hb2
          rw [if_neg hb2]
          split at h
          · rename_i hb4
            rw [if_pos hb4]
            match r with
            | [] => simp at h
            | [a] => simp at h
            | [a, c] => simp at h
            | [a, c, d'] => simp at h
            | a :: c :: d' :: f :: r2 =>
              dsimp only [List.cons_append] at h ⊢
              split at h
              · rename_i hlen
                simp only [Option.some.injEq, Prod.mk.injEq] at h
                obtain ⟨h1, h2, h3⟩ := h
                subst h1
                rw [if_pos (by simp only [List.length_append]; omega)]
                rw [List.take_append_of_le_length hlen, List.drop_append_eq_append_drop]
                rw [show a + 256 * c + 65536 * d' + 16777216 * f - r2.length = 0 from by omega]
                simp only [List.drop_zero, Option.some.injEq, Prod.mk.injEq]
                refine ⟨by trivial, h2, by rw [← h3]⟩
              · simp at h
          · rename_i hb4
            rw [if_neg hb4]
            simp only [Option.some.injEq, Prod.mk.injEq] at h ⊢
            obtain ⟨h1, h2, h3⟩ := h
            exact ⟨h1, h2, by rw [← h3]⟩

theorem getScriptOp_split {s : List Nat} {op : Nat} {d rest : List Nat}
    (h : GetScriptOp s = some (op, d, rest)) :
    ∃ e, s = e ++ rest ∧ GetScriptOp e = some (op, d, []) := by
  match s with
  | [] => simp [GetScriptOp] at h
  | b :: r =>
    simp only [GetScriptOp] at h
    split at h
    · rename_i hb
      split at h
      · rename_i hlen
        simp only [Option.some.injEq, Prod.mk.injEq] at h
        obtain ⟨h1, h2, h3⟩ := h
        refine ⟨b :: r.take b, by rw [← h3]; simp, ?_⟩
        simp only [GetScriptOp]
        rw [if_pos hb, if_pos (by simp only [List.length_take]; omega)]
        simp only [List.take_take, Nat.min_self, Option.some.injEq, Prod.mk.injEq]
        refine ⟨h1, by rw [← h2], ?_⟩
        rw [List.drop_eq_nil_iff]
        simp only [List.length_take]
        omega
      · simp at h
    · rename_i hb
      split at h
      · rename_i hb1
        match r with
        | [] => simp at h
        | n :: r2 =>
          dsimp only at h
          split at h
          · rename_i hlen
            simp only [Option.some.injEq, Prod.mk.injEq] at h
            obtain ⟨h1, h2, h3⟩ := h
            refine ⟨b :: n :: r2.take n, by rw [← h3]; simp, ?_⟩
            simp only [GetScriptOp]
            rw [if_neg hb, if_pos hb1]
            try dsimp only
            rw [if_pos (by simp only [List.length_take]; omega)]
            simp only [List.take_take, Nat.min_self, Option.some.injEq, Prod.mk.injEq]
            refine ⟨h1, by rw [← h2], ?_⟩
            rw [List.drop_eq_nil_iff]
            simp only [List.length_take]
            omega
          · simp at h
      · rename_i hb1
        split at h
        · rename_i hb2
          match r with
          | [] => simp at h
          | [a] => simp at h
          | a :: c :: r2 =>
            dsimp only at h
            split at h
            · rename_i hlen
              simp only [Option.some.injEq, Prod.mk.injEq] at h
              obtain ⟨h1, h2, h3⟩ := h
              refine ⟨b :: a :: c :: r2.take (a + 256 * c), by rw [← h3]; simp, ?_⟩
              simp only [GetScriptOp]
              rw [if_neg hb, if_neg hb1, if_pos hb2]
              try dsimp only
              rw [if_pos (by simp only [List.length_take]; omega)]
              simp only [List.take_take, Nat.min_self, Option.some.injEq, Prod.mk.injEq]
              refine ⟨h1, by rw [← h2], ?_⟩
              rw [List.drop_eq_nil_iff]
              simp only [List.length_take]
              omega
            · simp at h
        · rename_i hb2
          split at h
          · rename_i hb4
            match r with
            | [] => simp at h
            | [a] => simp at h
            | [a, c] => simp at h
            | [a, c, d'] => simp at h
            | a :: c :: d' :: f :: r2 =>
              dsimp only at h
              split at h
              · rename_i hlen
                simp only [Option.some.injEq, Prod.mk.injEq] at h
                obtain ⟨h1, h2, h3⟩ := h
                refine ⟨b :: a :: c :: d' :: f :: r2.take (a + 256 * c + 65536 * d' + 16777216 * f),
                  by rw [← h3]; simp, ?_⟩
                simp only [GetScriptOp]
                rw [if_neg hb, if_neg hb1, if_neg hb2, if_pos hb4]
                try dsimp only
                rw [if_pos (by simp only [List.length_take]; omega)]
                simp only [List.take_take, Nat.min_self, Option.some.injEq, Prod.mk.injEq]
                refine ⟨h1, by rw [← h2], ?_⟩
                rw [List.drop_eq_nil_iff]
                simp only [List.length_take]
                omega
              · simp at h
          · rename_i hb4
            simp only [Option.some.injEq, Prod.mk.injEq] at h
            obtain ⟨h1, h2, h3⟩ := h
            refine ⟨[b], by rw [← h3]; rfl, ?_⟩
            simp only [GetScriptOp]
            rw [if_neg hb, if_neg hb1, if_neg hb2, if_neg hb4]
            rw [h1, ← h2]

theorem getScriptOp_nonempty {e : List Nat} {op : Nat} {d r : List Nat}
    (h : GetScriptOp e = some (op, d, r)) : e ≠ [] := by
  intro he
  rw [he] at h
  simp [GetScriptOp] at h

/-! ## Multisig shape (towards C5) -/

/-- The spec's well-sized-pubkey predicate (§3): 33 bytes with first byte
2 or 3, or 65 bytes with first byte 4, 6 or 7. -/
def WellSizedKey (pk : List Nat) : Prop :=
  (pk.length = 33 ∧ (pk.getD 0 0 = 2 ∨ pk.getD 0 0 = 3))
  ∨ (pk.length = 65 ∧ (pk.getD 0 0 = 4 ∨ pk.getD 0 0 = 6 ∨ pk.getD 0 0 = 7))

theorem validSize_iff_wellSized (pk : List Nat) : ValidSize pk = true ↔ WellSizedKey pk := by
  unfold ValidSize GetLen WellSizedKey
  simp only [Bool.and_eq_true, decide_eq_true_eq]
  split_ifs with h1 h2 <;> constructor <;> intro hh <;> first | omega | (exfalso; omega)

/-- The multisig shape of §4.E rule 6, stated declaratively from the spec's
words: `<small int m> <push pubkey_1> … <push pubkey_n> <small int n>
OP_CHECKMULTISIG` with every pubkey well-sized, `1 ≤ m ≤ n ≤ 16` and no
trailing bytes; each pubkey is carried by one script push operation. -/
def MultisigShape (s : List Nat) (m : Nat) (pks : List (List Nat)) (n : Nat) : Prop :=
  1 ≤ m ∧ m ≤ n ∧ n ≤ 16 ∧ pks.length = n ∧ (∀ pk ∈ pks, WellSizedKey pk) ∧
  ∃ encs : List (List Nat),
    List.Forall₂ (fun e pk => ∃ op, GetScriptOp e = some (op, pk, [])) encs pks ∧
    s = (OP_1 + m - 1) :: (encs.flatten ++ [OP_1 + n - 1, OP_CHECKMULTISIG])

theorem msLoop_decomp {fuel : Nat} {s : List Nat} {acc : List (List Nat)}
    {opn : Nat} {pks : List (List Nat)} {rest2 : List Nat}
    (h : msLoop fuel s acc = some (opn, pks, rest2)) :
    ∃ (pks' : List (List Nat)) (encs : List (List Nat)) (sN : List Nat) (dN : List Nat),
      pks = acc ++ pks'
      ∧ List.Forall₂ (fun e pk => ∃ op, GetScriptOp e = some (op, pk, [])) encs pks'
      ∧ (∀ pk ∈ pks', ValidSize pk = true)
      ∧ s = encs.flatten ++ sN
      ∧ GetScriptOp sN = some (opn, dN, rest2)
      ∧ ValidSize dN = false := by
  induction fuel generalizing s acc with
  | zero => simp [msLoop] at h
  | succ f ih =>
    rw [msLoop] at h
    match hget : GetScriptOp s with
    | none => simp [hget] at h
    | some (op, data, rest) =>
      simp only [hget] at h
      by_cases hvs : ValidSize data = true
      · rw [if_pos hvs] at h
        obtain ⟨pks', encs, sN, dN, h1, h2, h3, h4, h5, h6⟩ := ih h
        obtain ⟨e, he1, he2⟩ := getScriptOp_split hget
        refine ⟨[data] ++ pks', e :: encs, sN, dN, by rw [h1]; simp, ?_, ?_, ?_, h5, h6⟩
        · exact List.Forall₂.cons ⟨op, he2⟩ h2
        · intro pk hpk
          rcases List.mem_append.1 hpk with h' | h'
          · simp only [List.mem_singleton] at h'
            rw [h']
            exact hvs
          · exact h3 pk h'
        · rw [he1, h4]
          simp
      · rw [if_neg hvs] at h
        simp only [Option.some.injEq, Prod.mk.injEq] at h
        obtain ⟨ho, hp, hr⟩ := h
        refine ⟨[], [], s, data, by simp [← hp], List.Forall₂.nil, by simp, by simp, ?_, ?_⟩
        · rw [← ho, ← hr]
          exact hget
        · simp only [Bool.not_eq_true] at hvs
          exact hvs

theorem msLoop_run {encs pks : List (List Nat)}
    (hf : List.Forall₂ (fun e pk => ∃ op, GetScriptOp e = some (op, pk, [])) encs pks)
    (hvs : ∀ pk ∈ pks, ValidSize pk = true) :
    ∀ fuel acc tail, encs.length < fuel →
      msLoop fuel (encs.flatten ++ tail) acc
        = msLoop (fuel - encs.length) tail (acc ++ pks) := by
  induction hf with
  | nil =>
    intro fuel acc tail hlt
    simp
  | @cons e pk encs' pks' hpair hrest ih =>
    intro fuel acc tail hlt
    obtain ⟨op, hop⟩ := hpair
    obtain ⟨f, rfl⟩ : ∃ f, fuel = f + 1 := ⟨fuel - 1, by omega⟩
    · have hext := getScriptOp_extend (encs'.flatten ++ tail) hop
      simp only [List.nil_append] at hext
      have hshape : (e :: encs').flatten ++ tail = e ++ (encs'.flatten ++ tail) := by
        simp
      rw [hshape, msLoop]
      simp only [hext]
      rw [if_pos (hvs pk (by simp))]
      have hlt' : encs'.length < f := by
        simp only [List.length_cons] at hlt
        omega
      rw [ih (fun pk' hpk' => hvs pk' (by simp [hpk'])) f (acc ++ [pk]) tail hlt']
      have : (f + 1) - (e :: encs').length = f - encs'.length := by
        simp only [List.length_cons]
        omega
      rw [this]
      simp

theorem cons_append_two_getLast (a b c : Nat) (l : List Nat) :
    (a :: (l ++ [b, c])).getLast? = some c := by
  have h : a :: (l ++ [b, c]) = (a :: (l ++ [b])) ++ [c] := by simp
  rw [h, List.getLast?_concat]

theorem forall2_parse_length_le {encs pks : List (List Nat)}
    (hf : List.Forall₂ (fun e pk => ∃ op, GetScriptOp e = some (op, pk, [])) encs pks) :
    encs.length ≤ encs.flatten.length := by
  induction hf with
  | nil => simp
  | @cons e pk encs' pks' hpair hrest ih =>
    obtain ⟨op, hop⟩ := hpair
    have hne := getScriptOp_nonempty hop
    have hlen : 1 ≤ e.length := by
      cases e
      · exact absurd rfl hne
      · simp
    simp only [List.length_cons, List.flatten_cons, List.length_append]
    omega

theorem decodeOPN_eq {op : Nat} (h : 81 ≤ op) : DecodeOP_N op = op - 80 := by
  unfold DecodeOP_N OP_1 OP_0
  rw [if_neg (by omega)]
  omega

theorem matchMultisig_iff_shape (s : List Nat) (m : Nat) (pks : List (List Nat)) :
    MatchMultisig s = some (m, pks) ↔ MultisigShape s m pks pks.length := by
  constructor
  · intro h
    unfold MatchMultisig at h
    split at h
    · simp at h
    · rename_i hck
      push_neg at hck
      obtain ⟨hlen1, hlast⟩ := hck
      split at h
      · simp at h
      · rename_i op1 d1 rest hget
        split at h
        · simp at h
        · rename_i hsm1
          simp only [not_not] at hsm1
          simp only [IsSmallInteger, Bool.and_eq_true, decide_eq_true_eq, OP_1, OP_16] at hsm1
          split at h
          · simp at h
          · rename_i opn pks0 rest2 hloop
            split at h
            · simp at h
            · rename_i hsmn
              simp only [not_not] at hsmn
              simp only [IsSmallInteger, Bool.and_eq_true, decide_eq_true_eq, OP_1, OP_16] at hsmn
              split at h
              · simp at h
              · rename_i hkeys
                push_neg at hkeys
                obtain ⟨hkeq, hge⟩ := hkeys
                split at h
                · rename_i hr1
                  simp only [Option.some.injEq, Prod.mk.injEq] at h
                  obtain ⟨hm, hpks⟩ := h
                  subst hpks
                  obtain ⟨hs1, -⟩ := getScriptOp_inv_opcode hget (by omega)
                  obtain ⟨pks2, encs, sN, dN, hp1, hp2, hp3, hp4, hp5, hp6⟩ :=
                    msLoop_decomp hloop
                  simp only [List.nil_append] at hp1
                  subst hp1
                  obtain ⟨hsN, hdN⟩ := getScriptOp_inv_opcode hp5 (by omega)
                  obtain ⟨c, hc⟩ := List.length_eq_one.1 hr1
                  subst hc
                  rw [decodeOPN_eq (by omega)] at hm
                  rw [decodeOPN_eq (by omega)] at hkeq
                  rw [decodeOPN_eq (by omega), decodeOPN_eq (by omega)] at hge
                  have hceq : c = OP_CHECKMULTISIG := by
                    rw [hs1, hp4, hsN] at hlast
                    have hre : op1 :: (encs.flatten ++ (opn :: [c]))
                        = (op1 :: (encs.flatten ++ [opn])) ++ [c] := by simp
                    rw [hre, List.getLast?_concat] at hlast
                    exact Option.some.inj hlast
                  refine ⟨by omega, by omega, by omega, by omega,
                    fun pk hpk => (validSize_iff_wellSized pk).1 (hp3 pk hpk), encs, hp2, ?_⟩
                  rw [hs1, hp4, hsN, hceq]
                  have h1 : OP_1 + m - 1 = op1 := by
                    unfold OP_1
                    omega
                  have h2 : OP_1 + pks0.length - 1 = opn := by
                    unfold OP_1
                    omega
                  rw [h1, h2]
                · simp at h
  · rintro ⟨hm1, hmn, hn16, hlen, hwell, encs, hf, hs⟩
    have hvalid : ∀ pk ∈ pks, ValidSize pk = true :=
      fun pk hpk => (validSize_iff_wellSized pk).2 (hwell pk hpk)
    have hm80 : OP_1 + m - 1 = 80 + m := by
      unfold OP_1
      omega
    have hn80 : OP_1 + pks.length - 1 = 80 + pks.length := by
      unfold OP_1
      omega
    rw [hm80, hn80] at hs
    subst hs
    have hencs_le := forall2_parse_length_le hf
    unfold MatchMultisig
    rw [if_neg (by
      push_neg
      refine ⟨by simp, ?_⟩
      rw [show (80 + m) :: (encs.flatten ++ [80 + pks.length, OP_CHECKMULTISIG])
          = ((80 + m) :: (encs.flatten ++ [80 + pks.length])) ++ [OP_CHECKMULTISIG] from by simp]
      rw [List.getLast?_concat])]
    simp only [getScriptOp_opcode (encs.flatten ++ [80 + pks.length, OP_CHECKMULTISIG])
      (by omega : 78 < 80 + m)]
    rw [if_neg (by
      simp only [not_not, IsSmallInteger, Bool.and_eq_true, decide_eq_true_eq, OP_1, OP_16]
      omega)]
    have hrun := msLoop_run hf hvalid
      ((encs.flatten ++ [80 + pks.length, OP_CHECKMULTISIG]).length + 1) []
      [80 + pks.length, OP_CHECKMULTISIG]
      (by simp only [List.length_append]; omega)
    rw [hrun]
    have hfe : (encs.flatten ++ [80 + pks.length, OP_CHECKMULTISIG]).length + 1 - encs.length
        = (encs.flatten.length + 2 - encs.length) + 1 := by
      simp only [List.length_append, List.length_cons, List.length_nil]
      omega
    rw [hfe, msLoop]
    simp only [getScriptOp_opcode [OP_CHECKMULTISIG] (by omega : 78 < 80 + pks.length)]
    rw [if_neg (by decide)]
    dsimp only
    rw [if_neg (by
      simp only [not_not, IsSmallInteger, Bool.and_eq_true, decide_eq_true_eq, OP_1, OP_16]
      omega)]
    rw [if_neg (by
      rw [decodeOPN_eq (by omega), decodeOPN_eq (by omega)]
      push_neg
      simp only [List.nil_append]
      omega)]
    rw [if_pos (by simp)]
    rw [decodeOPN_eq (by omega)]
    simp only [List.nil_append, Option.some.injEq, Prod.mk.injEq]
    exact ⟨by omega, trivial⟩

/-- Failure of Solver's earlier classification rules (P2SH, witness
program, null-data, P2PK, P2PKH). -/
def SolverPriorRulesFail (s : List Nat) : Prop :=
  IsPayToScriptHash s = false ∧ IsWitnessProgram s = none
  ∧ ¬(1 ≤ s.length ∧ s.getD 0 0 = OP_RETURN ∧ IsPushOnly (s.drop 1) = true)
  ∧ MatchPayToPubkey s = none ∧ MatchPayToPubkeyHash s = none

theorem solver_multisig_prior {s : List Nat} (h : (Solver s).1 = TxoutType.MULTISIG) :
    SolverPriorRulesFail s := by
  unfold Solver at h
  split at h
  · simp at h
  · rename_i h1
    split at h
    · rename_i wv wp hw
      split at h <;> try simp at h
      split at h <;> try simp at h
      split at h <;> try simp at h
      split at h <;> simp at h
    · rename_i hw
      split at h
      · simp at h
      · rename_i h2
        split at h
        · simp at h
        · rename_i hpk
          split at h
          · simp at h
          · rename_i hph
            split at h
            · rename_i m keys hms
              exact ⟨by simp_all, hw, h2, hpk, hph⟩
            · simp at h

theorem solver_eq_multisig {s : List Nat} {m : Nat} {keys : List (List Nat)}
    (hprior : SolverPriorRulesFail s) (hmm : MatchMultisig s = some (m, keys)) :
    Solver s = (TxoutType.MULTISIG, [[m]] ++ keys ++ [[keys.length]]) := by
  obtain ⟨h1, h2, h3, h4, h5⟩ := hprior
  unfold Solver
  rw [if_neg (by simp [h1])]
  simp only [h2]
  rw [if_neg h3]
  simp only [h4, h5, hmm]

/-! ## Claim C5 -/

/-- C5: Solver classifies a script as MULTISIG exactly when, the earlier
P2SH / witness-program / null-data / P2PK / P2PKH rules having failed, the
script has the shape `<small int m> <push pubkey_1> … <push pubkey_n>
<small int n> OP_CHECKMULTISIG` with every pubkey well-sized (33 bytes
with first byte 2 or 3, or 65 bytes with first byte 4, 6 or 7),
`1 ≤ m ≤ n ≤ 16` and no trailing bytes; the solutions are then
`[[m], pubkey_1, …, pubkey_n, [n]]`. -/
theorem solver_multisig_characterization (s : List Nat) :
    ((Solver s).1 = TxoutType.MULTISIG ↔
      SolverPriorRulesFail s ∧ ∃ m pks n, MultisigShape s m pks n)
    ∧ (∀ m pks n, SolverPriorRulesFail s → MultisigShape s m pks n →
        Solver s = (TxoutType.MULTISIG, [[m]] ++ pks ++ [[n]])) := by
  have main : ∀ m pks n, SolverPriorRulesFail s → MultisigShape s m pks n →
      Solver s = (TxoutType.MULTISIG, [[m]] ++ pks ++ [[n]]) := by
    intro m pks n hprior hshape
    have hn : pks.length = n := hshape.2.2.2.1
    have hmm := (matchMultisig_iff_shape s m pks).2 (by rw [hn]; exact hshape)
    rw [solver_eq_multisig hprior hmm, hn]
  refine ⟨⟨?_, ?_⟩, main⟩
  · intro h
    have hprior := solver_multisig_prior h
    obtain ⟨m, keys, hmm, -⟩ := solver_multisig_inv h
    exact ⟨hprior, m, keys, keys.length, (matchMultisig_iff_shape s m keys).1 hmm⟩
  · rintro ⟨hprior, m, pks, n, hshape⟩
    rw [main m pks n hprior hshape]

/-- Witness for C5 at a concrete 1-of-1 multisig script. -/
theorem solver_multisig_characterization_witness :
    SolverPriorRulesFail ([OP_1, 33] ++ (2 :: List.replicate 32 0) ++ [OP_1, OP_CHECKMULTISIG])
      ∧ ∃ m pks n,
        MultisigShape ([OP_1, 33] ++ (2 :: List.replicate 32 0) ++ [OP_1, OP_CHECKMULTISIG])
          m pks n :=
  (solver_multisig_characterization
    ([OP_1, 33] ++ (2 :: List.replicate 32 0) ++ [OP_1, OP_CHECKMULTISIG])).1.mp (by decide)

/-! ## Base-value lemmas (towards C3) -/

theorem beVal_foldl_base (B a : Nat) (l : List Nat) :
    l.foldl (fun x d => x * B + d) a = a * B ^ l.length + beVal B l := by
  induction l generalizing a with
  | nil => simp [beVal]
  | cons d t ih =>
    simp only [List.foldl_cons, List.length_cons, beVal, Nat.zero_mul, Nat.zero_add]
    rw [ih (a * B + d), ih d]
    ring

theorem beVal_cons (B d : Nat) (t : List Nat) :
    beVal B (d :: t) = d * B ^ t.length + beVal B t := by
  unfold beVal
  simp only [List.foldl_cons, Nat.zero_mul, Nat.zero_add]
  exact beVal_foldl_base B d t

theorem beVal_append (B : Nat) (l1 l2 : List Nat) :
    beVal B (l1 ++ l2) = beVal B l1 * B ^ l2.length + beVal B l2 := by
  unfold beVal
  rw [List.foldl_append]
  exact beVal_foldl_base B _ l2

theorem beVal_lt (B : Nat) (hB : 0 < B) (l : List Nat) (h : ∀ d ∈ l, d < B) :
    beVal B l < B ^ l.length := by
  induction l with
  | nil => simp [beVal]
  | cons d t ih =>
    rw [beVal_cons]
    have hd : d < B := h d (by simp)
    have ht := ih (fun d' hd' => h d' (by simp [hd']))
    have hBp : 0 < B ^ t.length := Nat.pos_pow_of_pos _ hB
    calc d * B ^ t.length + beVal B t
        < d * B ^ t.length + B ^ t.length := by omega
      _ = (d + 1) * B ^ t.length := by ring
      _ ≤ B * B ^ t.length := Nat.mul_le_mul_right _ (by omega)
      _ = B ^ (t.length + 1) := by ring
      _ = B ^ (d :: t).length := by simp

theorem beVal_inj (B : Nat) (hB : 0 < B) :
    ∀ (l1 l2 : List Nat), l1.length = l2.length →
      (∀ d ∈ l1, d < B) → (∀ d ∈ l2, d < B) →
      beVal B l1 = beVal B l2 → l1 = l2 := by
  intro l1
  induction l1 with
  | nil =>
    intro l2 hlen _ _ _
    cases l2
    · rfl
    · simp at hlen
  | cons d t ih =>
    intro l2 hlen h1 h2 hv
    cases l2 with
    | nil => simp at hlen
    | cons d' t' =>
      simp only [List.length_cons] at hlen
      rw [beVal_cons, beVal_cons] at hv
      have htl : t.length = t'.length := by omega
      rw [htl] at hv
      have hb1 := beVal_lt B hB t (fun x hx => h1 x (by simp [hx]))
      have hb2 := beVal_lt B hB t' (fun x hx => h2 x (by simp [hx]))
      rw [htl] at hb1
      have hdd : d = d' := by
        by_contra hne
        rcases Nat.lt_or_ge d d' with hlt | hge
        · have : d * B ^ t'.length + B ^ t'.length ≤ d' * B ^ t'.length := by
            calc d * B ^ t'.length + B ^ t'.length = (d + 1) * B ^ t'.length := by ring
              _ ≤ d' * B ^ t'.length := Nat.mul_le_mul_right _ (by omega)
          omega
        · have hlt' : d' < d := by omega
          have : d' * B ^ t'.length + B ^ t'.length ≤ d * B ^ t'.length := by
            calc d' * B ^ t'.length + B ^ t'.length = (d' + 1) * B ^ t'.length := by ring
              _ ≤ d * B ^ t'.length := Nat.mul_le_mul_right _ (by omega)
          omega
      subst hdd
      have hteq : beVal B t = beVal B t' := by omega
      rw [ih t' htl (fun x hx => h1 x (by simp [hx])) (fun x hx => h2 x (by simp [hx])) hteq]

/-! ## Bit-arithmetic helpers -/

theorem lor_shift_eq_add {v k : Nat} (a : Nat) (hv : v < 2 ^ k) :
    (a <<< k) ||| v = a * 2 ^ k + v := by
  rw [Nat.shiftLeft_eq]
  rw [Nat.mul_comm a (2 ^ k)]
  rw [← Nat.mul_add_lt_is_or hv]

theorem and_mask_eq_mod (x n : Nat) : x &&& (2 ^ n - 1) = x % 2 ^ n :=
  Nat.and_pow_two_sub_one_eq_mod x n

theorem shl_and_mask {s t : Nat} (a : Nat) (hst : s ≤ t) :
    (a <<< s) &&& (2 ^ t - 1) = (a % 2 ^ (t - s)) * 2 ^ s := by
  rw [Nat.shiftLeft_eq, and_mask_eq_mod]
  have ht : 2 ^ t = 2 ^ (t - s) * 2 ^ s := by
    rw [← Nat.pow_add]
    congr 1
    omega
  rw [ht, Nat.mul_mod_mul_right]

theorem shr_and_mask (a s t : Nat) :
    (a >>> s) &&& (2 ^ t - 1) = a / 2 ^ s % 2 ^ t := by
  rw [Nat.shiftRight_eq_div_pow, and_mask_eq_mod]

theorem sub_mod_self {a n : Nat} (h : n ≤ a) : (a - n) % n = a % n := by
  conv_rhs => rw [show a = (a - n) + n from by omega]
  rw [Nat.add_mod_right]

theorem mod_pow_split (acc m n : Nat) :
    acc % 2 ^ (m + n) = (acc / 2 ^ m % 2 ^ n) * 2 ^ m + acc % 2 ^ m := by
  rw [Nat.pow_add, Nat.mod_mul]
  ring

/-! ## emitLoop and cbLoop characterization -/

theorem emitLoopF_spec (tb acc : Nat) (htb : 0 < tb) :
    ∀ fuel bits, bits ≤ fuel →
      (emitLoopF tb (2 ^ tb - 1) acc fuel bits).1 = bits % tb
      ∧ (emitLoopF tb (2 ^ tb - 1) acc fuel bits).2.length = bits / tb
      ∧ (∀ o ∈ (emitLoopF tb (2 ^ tb - 1) acc fuel bits).2, o < 2 ^ tb)
      ∧ beVal (2 ^ tb) (emitLoopF tb (2 ^ tb - 1) acc fuel bits).2 * 2 ^ (bits % tb)
          + acc % 2 ^ (bits % tb) = acc % 2 ^ bits := by
  intro fuel
  induction fuel with
  | zero =>
    intro bits hb
    obtain rfl : bits = 0 := by omega
    simp [emitLoopF, beVal]
  | succ f ih =>
    intro bits hb
    rw [emitLoopF]
    by_cases hc : 0 < tb ∧ tb ≤ bits
    · rw [if_pos hc]
      obtain ⟨-, htb'⟩ := hc
      obtain ⟨ih1, ih2, ih3, ih4⟩ := ih (bits - tb) (by omega)
      have hmod : (bits - tb) % tb = bits % tb := sub_mod_self htb'
      have hdiv : bits / tb = (bits - tb) / tb + 1 := by
        rw [Nat.div_eq_sub_div htb htb']
      constructor
      · simp only [ih1, hmod]
      constructor
      · simp only [List.length_cons, ih2, hdiv]
      constructor
      · intro o ho
        simp only [List.mem_cons] at ho
        rcases ho with ho | ho
        · rw [ho, shr_and_mask]
          exact Nat.mod_lt _ (Nat.pos_pow_of_pos _ (by omega))
        · exact ih3 o ho
      · rw [beVal_cons, shr_and_mask, ih2, ← hmod]
        have hbits : bits = (bits - tb) + tb := by omega
        have hsplit := mod_pow_split acc (bits - tb) tb
        rw [← hbits] at hsplit
        have harith : tb * ((bits - tb) / tb) + (bits - tb) % tb = bits - tb :=
          Nat.div_add_mod _ _
        have hpow : (2 ^ tb) ^ ((bits - tb) / tb) * 2 ^ ((bits - tb) % tb) = 2 ^ (bits - tb) := by
          rw [← Nat.pow_mul, ← Nat.pow_add, harith]
        calc (acc / 2 ^ (bits - tb) % 2 ^ tb * (2 ^ tb) ^ ((bits - tb) / tb)
              + beVal (2 ^ tb) (emitLoopF tb (2 ^ tb - 1) acc f (bits - tb)).2)
              * 2 ^ ((bits - tb) % tb) + acc % 2 ^ ((bits - tb) % tb)
            = acc / 2 ^ (bits - tb) % 2 ^ tb
                * ((2 ^ tb) ^ ((bits - tb) / tb) * 2 ^ ((bits - tb) % tb))
              + (beVal (2 ^ tb) (emitLoopF tb (2 ^ tb - 1) acc f (bits - tb)).2
                  * 2 ^ ((bits - tb) % tb) + acc % 2 ^ ((bits - tb) % tb)) := by ring
          _ = acc / 2 ^ (bits - tb) % 2 ^ tb * 2 ^ (bits - tb) + acc % 2 ^ (bits - tb) := by
              rw [hpow, ih4]
          _ = acc % 2 ^ bits := hsplit.symm
    · rw [if_neg hc]
      have hlt : bits < tb := by omega
      simp only [Nat.mod_eq_of_lt hlt, Nat.div_eq_of_lt hlt]
      refine ⟨by simp, by simp, by simp, ?_⟩
      simp [beVal]

theorem cbLoop_spec (fb tb : Nat) (htb : 0 < tb) :
    ∀ (xs : List Nat) (acc bits : Nat), (∀ v ∈ xs, v < 2 ^ fb) → bits < tb →
      (cbLoop fb tb (2 ^ (fb + tb - 1) - 1) (2 ^ tb - 1) xs acc bits).2.1 < tb
      ∧ tb * (cbLoop fb tb (2 ^ (fb + tb - 1) - 1) (2 ^ tb - 1) xs acc bits).2.2.length
          + (cbLoop fb tb (2 ^ (fb + tb - 1) - 1) (2 ^ tb - 1) xs acc bits).2.1
        = bits + fb * xs.length
      ∧ (∀ o ∈ (cbLoop fb tb (2 ^ (fb + tb - 1) - 1) (2 ^ tb - 1) xs acc bits).2.2, o < 2 ^ tb)
      ∧ beVal (2 ^ tb) (cbLoop fb tb (2 ^ (fb + tb - 1) - 1) (2 ^ tb - 1) xs acc bits).2.2
            * 2 ^ (cbLoop fb tb (2 ^ (fb + tb - 1) - 1) (2 ^ tb - 1) xs acc bits).2.1
          + (cbLoop fb tb (2 ^ (fb + tb - 1) - 1) (2 ^ tb - 1) xs acc bits).1
              % 2 ^ (cbLoop fb tb (2 ^ (fb + tb - 1) - 1) (2 ^ tb - 1) xs acc bits).2.1
        = (acc % 2 ^ bits) * 2 ^ (fb * xs.length) + beVal (2 ^ fb) xs := by
  intro xs
  induction xs with
  | nil =>
    intro acc bits hx hb
    refine ⟨hb, by simp [cbLoop], by simp [cbLoop], ?_⟩
    simp [cbLoop, beVal]
  | cons v rest ih =>
    intro acc bits hx hb
    have hv : v < 2 ^ fb := hx v (by simp)
    -- the updated accumulator
    have hacc2 : ((acc <<< fb) ||| v) &&& (2 ^ (fb + tb - 1) - 1)
        = (acc * 2 ^ fb + v) % 2 ^ (fb + tb - 1) := by
      rw [lor_shift_eq_add acc hv, and_mask_eq_mod]
    have hble : bits + fb ≤ fb + tb - 1 := by omega
    -- buffered value after absorbing v, modulo any width w ≤ bits + fb
    have habs : ∀ w, w ≤ bits + fb →
        ((acc * 2 ^ fb + v) % 2 ^ (fb + tb - 1)) % 2 ^ w
          = ((acc % 2 ^ bits) * 2 ^ fb + v) % 2 ^ w := by
      intro w hw
      rw [Nat.mod_mod_of_dvd _ (Nat.pow_dvd_pow 2 (by omega))]
      have h1 : (acc * 2 ^ fb + v) % 2 ^ (bits + fb)
          = (acc % 2 ^ bits) * 2 ^ fb + v := by
        have hbe : 2 ^ (bits + fb) = 2 ^ bits * 2 ^ fb := by
          rw [← Nat.pow_add]
        have hsum : (acc % 2 ^ bits) * 2 ^ fb + v < 2 ^ (bits + fb) := by
          have h2 : acc % 2 ^ bits < 2 ^ bits := Nat.mod_lt _ (Nat.pos_pow_of_pos _ (by omega))
          calc (acc % 2 ^ bits) * 2 ^ fb + v
              < (acc % 2 ^ bits) * 2 ^ fb + 2 ^ fb := by omega
            _ = (acc % 2 ^ bits + 1) * 2 ^ fb := by ring
            _ ≤ 2 ^ bits * 2 ^ fb := Nat.mul_le_mul_right _ (by omega)
            _ = 2 ^ (bits + fb) := by rw [← Nat.pow_add]
        calc (acc * 2 ^ fb + v) % 2 ^ (bits + fb)
            = ((acc * 2 ^ fb) % 2 ^ (bits + fb) + v % 2 ^ (bits + fb)) % 2 ^ (bits + fb) := by
              rw [Nat.add_mod]
          _ = ((acc % 2 ^ bits) * 2 ^ fb + v % 2 ^ (bits + fb)) % 2 ^ (bits + fb) := by
              rw [hbe, Nat.mul_mod_mul_right]
          _ = ((acc % 2 ^ bits) * 2 ^ fb + v) % 2 ^ (bits + fb) := by
              have hvlt : v < 2 ^ (bits + fb) :=
                lt_of_lt_of_le hv (Nat.pow_le_pow_right (by omega) (by omega))
              rw [Nat.mod_eq_of_lt hvlt]
          _ = (acc % 2 ^ bits) * 2 ^ fb + v := Nat.mod_eq_of_lt hsum
      calc (acc * 2 ^ fb + v) % 2 ^ w
          = (acc * 2 ^ fb + v) % 2 ^ (bits + fb) % 2 ^ w := by
            rw [Nat.mod_mod_of_dvd _ (Nat.pow_dvd_pow 2 hw)]
        _ = ((acc % 2 ^ bits) * 2 ^ fb + v) % 2 ^ w := by rw [h1]
    have habs2 : ((acc * 2 ^ fb + v) % 2 ^ (fb + tb - 1)) % 2 ^ (bits + fb)
        = (acc % 2 ^ bits) * 2 ^ fb + v := by
      rw [habs (bits + fb) le_rfl]
      apply Nat.mod_eq_of_lt
      have h2 : acc % 2 ^ bits < 2 ^ bits := Nat.mod_lt _ (Nat.pos_pow_of_pos _ (by omega))
      calc (acc % 2 ^ bits) * 2 ^ fb + v
          < (acc % 2 ^ bits) * 2 ^ fb + 2 ^ fb := by omega
        _ = (acc % 2 ^ bits + 1) * 2 ^ fb := by ring
        _ ≤ 2 ^ bits * 2 ^ fb := Nat.mul_le_mul_right _ (by omega)
        _ = 2 ^ (bits + fb) := by rw [← Nat.pow_add]
    set A2 := ((acc <<< fb) ||| v) &&& (2 ^ (fb + tb - 1) - 1) with hA2def
    set E := emitLoopF tb (2 ^ tb - 1) A2 (bits + fb) (bits + fb) with hEdef
    set R := cbLoop fb tb (2 ^ (fb + tb - 1) - 1) (2 ^ tb - 1) rest A2 E.1 with hRdef
    have hunfold : cbLoop fb tb (2 ^ (fb + tb - 1) - 1) (2 ^ tb - 1) (v :: rest) acc bits
        = (R.1, R.2.1, E.2 ++ R.2.2) := rfl
    rw [hunfold]
    obtain ⟨e1, e2, e3, e4⟩ := emitLoopF_spec tb A2 htb (bits + fb) (bits + fb) le_rfl
    rw [← hEdef] at e1 e2 e3 e4
    have hE1lt : E.1 < tb := by
      rw [e1]
      exact Nat.mod_lt _ htb
    obtain ⟨i1, i2, i3, i4⟩ := ih A2 E.1 (fun w hw => hx w (by simp [hw])) hE1lt
    rw [← hRdef] at i1 i2 i3 i4
    have hdm : tb * ((bits + fb) / tb) + (bits + fb) % tb = bits + fb := Nat.div_add_mod _ _
    refine ⟨i1, ?_, ?_, ?_⟩
    · simp only [List.length_append, List.length_cons]
      rw [e2]
      rw [e1] at i2
      have h3 : tb * ((bits + fb) / tb + R.2.2.length)
          = tb * ((bits + fb) / tb) + tb * R.2.2.length := by ring
      have hmul : fb * (rest.length + 1) = fb * rest.length + fb := by ring
      omega
    · intro o ho
      rcases List.mem_append.1 ho with ho | ho
      · exact e3 o ho
      · exact i3 o ho
    · rw [beVal_append]
      have hA2M : A2 = (acc * 2 ^ fb + v) % 2 ^ (fb + tb - 1) := hacc2
      have he4 : beVal (2 ^ tb) E.2 * 2 ^ E.1 + A2 % 2 ^ E.1 = (acc % 2 ^ bits) * 2 ^ fb + v := by
        rw [e1, e4, hA2M]
        exact habs2
      have hexp : (2 ^ tb) ^ R.2.2.length * 2 ^ R.2.1 = 2 ^ E.1 * 2 ^ (fb * rest.length) := by
        rw [← Nat.pow_mul, ← Nat.pow_add, ← Nat.pow_add, i2]
      calc (beVal (2 ^ tb) E.2 * (2 ^ tb) ^ R.2.2.length + beVal (2 ^ tb) R.2.2) * 2 ^ R.2.1
            + R.1 % 2 ^ R.2.1
          = beVal (2 ^ tb) E.2 * ((2 ^ tb) ^ R.2.2.length * 2 ^ R.2.1)
            + (beVal (2 ^ tb) R.2.2 * 2 ^ R.2.1 + R.1 % 2 ^ R.2.1) := by ring
        _ = beVal (2 ^ tb) E.2 * (2 ^ E.1 * 2 ^ (fb * rest.length))
            + ((A2 % 2 ^ E.1) * 2 ^ (fb * rest.length) + beVal (2 ^ fb) rest) := by
            rw [hexp, i4]
        _ = (beVal (2 ^ tb) E.2 * 2 ^ E.1 + A2 % 2 ^ E.1) * 2 ^ (fb * rest.length)
            + beVal (2 ^ fb) rest := by ring
        _ = ((acc % 2 ^ bits) * 2 ^ fb + v) * 2 ^ (fb * rest.length) + beVal (2 ^ fb) rest := by
            rw [he4]
        _ = (acc % 2 ^ bits) * 2 ^ (fb * (v :: rest).length) + beVal (2 ^ fb) (v :: rest) := by
            rw [beVal_cons]
            have h1 : fb * (v :: rest).length = fb * rest.length + fb := by
              simp only [List.length_cons]
              ring
            rw [h1, Nat.pow_add]
            have h2 : (2 ^ fb) ^ rest.length = 2 ^ (fb * rest.length) := by
              rw [← Nat.pow_mul]
            rw [h2]
            ring

/-- Helper: the 8-to-5 padded / 5-to-8 strict conversion round trip, with
the output's symbol bound and length window. -/
theorem convertBits_id (x : List Nat) (hx : ∀ v ∈ x, v < 2 ^ 8) :
    ∃ y, ConvertBits 8 5 true x = some y ∧ ConvertBits 5 8 false y = some x
      ∧ (∀ v ∈ y, v < 2 ^ 5) ∧ 8 * x.length ≤ 5 * y.length
      ∧ 5 * y.length < 8 * x.length + 5 := by
  obtain ⟨r1, r2, r3, r4⟩ := cbLoop_spec 8 5 (by omega) x 0 0 hx (by omega)
  set R := cbLoop 8 5 (2 ^ (8 + 5 - 1) - 1) (2 ^ 5 - 1) x 0 0 with hRdef
  simp only [Nat.pow_zero, Nat.mod_one, Nat.zero_mul, Nat.zero_add] at r2 r4
  have henc : ConvertBits 8 5 true x
      = if R.2.1 ≠ 0 then some (R.2.2 ++ [(R.1 <<< (5 - R.2.1)) &&& (2 ^ 5 - 1)])
        else some R.2.2 := by
    rw [hRdef]
    simp only [ConvertBits, eq_self_iff_true, if_true]
  by_cases hb : R.2.1 = 0
  · -- no padding symbol was needed
    obtain ⟨s1, s2, s3, s4⟩ := cbLoop_spec 5 8 (by omega) R.2.2 0 0 r3 (by omega)
    set S := cbLoop 5 8 (2 ^ (5 + 8 - 1) - 1) (2 ^ 8 - 1) R.2.2 0 0 with hSdef
    simp only [Nat.pow_zero, Nat.mod_one, Nat.zero_mul, Nat.zero_add] at s2 s4
    have hS0 : S.2.1 = 0 := by omega
    have hSlen : S.2.2.length = x.length := by omega
    rw [hS0] at s4
    simp only [Nat.pow_zero, Nat.mod_one, Nat.mul_one, Nat.add_zero] at s4
    rw [hb] at r4
    simp only [Nat.pow_zero, Nat.mod_one, Nat.mul_one, Nat.add_zero] at r4
    have hSx : S.2.2 = x := beVal_inj (2 ^ 8) (by omega) S.2.2 x hSlen s3 hx (s4.trans r4)
    have hrem : S.1 % 2 ^ S.2.1 = 0 := by simp [hS0, Nat.mod_one]
    have hmask : (S.1 <<< (8 - S.2.1)) &&& (2 ^ 8 - 1) = 0 := by
      rw [shl_and_mask S.1 (show 8 - S.2.1 ≤ 8 by omega)]
      have h88 : 8 - (8 - S.2.1) = S.2.1 := by omega
      rw [h88, hrem, Nat.zero_mul]
    have hdec : ConvertBits 5 8 false R.2.2
        = if 5 ≤ S.2.1 ∨ ((S.1 <<< (8 - S.2.1)) &&& (2 ^ 8 - 1)) ≠ 0 then none
          else some S.2.2 := by
      rw [hSdef]
      simp only [ConvertBits, Bool.false_eq_true, if_false]
    have hcond : ¬ (5 ≤ S.2.1 ∨ ((S.1 <<< (8 - S.2.1)) &&& (2 ^ 8 - 1)) ≠ 0) := by
      push_neg
      exact ⟨by omega, hmask⟩
    refine ⟨R.2.2, ?_, ?_, r3, by omega, by omega⟩
    · rw [henc, if_neg (fun h => h hb)]
    · rw [hdec, if_neg hcond, hSx]
  · -- one padding symbol carries the residual bits
    have hple : 5 - R.2.1 ≤ 5 := by omega
    have hp : (R.1 <<< (5 - R.2.1)) &&& (2 ^ 5 - 1)
        = (R.1 % 2 ^ R.2.1) * 2 ^ (5 - R.2.1) := by
      rw [shl_and_mask R.1 hple]
      have h55 : 5 - (5 - R.2.1) = R.2.1 := by omega
      rw [h55]
    have hplt : (R.1 <<< (5 - R.2.1)) &&& (2 ^ 5 - 1) < 2 ^ 5 := by
      rw [hp]
      have hsum : R.2.1 + (5 - R.2.1) = 5 := by omega
      calc (R.1 % 2 ^ R.2.1) * 2 ^ (5 - R.2.1)
          < 2 ^ R.2.1 * 2 ^ (5 - R.2.1) :=
            mul_lt_mul_of_pos_right (Nat.mod_lt _ (Nat.pos_pow_of_pos _ (by omega)))
              (Nat.pos_pow_of_pos _ (by omega))
        _ = 2 ^ 5 := by rw [← Nat.pow_add, hsum]
    have hy : ∀ v ∈ R.2.2 ++ [(R.1 <<< (5 - R.2.1)) &&& (2 ^ 5 - 1)], v < 2 ^ 5 := by
      intro v hv
      rcases List.mem_append.1 hv with hv | hv
      · exact r3 v hv
      · rw [List.mem_singleton.1 hv]
        exact hplt
    have hvaly : beVal (2 ^ 5) (R.2.2 ++ [(R.1 <<< (5 - R.2.1)) &&& (2 ^ 5 - 1)])
        = beVal (2 ^ 8) x * 2 ^ (5 - R.2.1) := by
      rw [beVal_append, hp]
      have hone : beVal (2 ^ 5) [(R.1 % 2 ^ R.2.1) * 2 ^ (5 - R.2.1)]
          = (R.1 % 2 ^ R.2.1) * 2 ^ (5 - R.2.1) := by
        simp [beVal]
      rw [hone]
      have hsum : R.2.1 + (5 - R.2.1) = 5 := by omega
      calc beVal (2 ^ 5) R.2.2 * (2 ^ 5) ^ [(R.1 % 2 ^ R.2.1) * 2 ^ (5 - R.2.1)].length
            + (R.1 % 2 ^ R.2.1) * 2 ^ (5 - R.2.1)
          = beVal (2 ^ 5) R.2.2 * (2 ^ R.2.1 * 2 ^ (5 - R.2.1))
            + (R.1 % 2 ^ R.2.1) * 2 ^ (5 - R.2.1) := by
            rw [List.length_singleton, pow_one, ← Nat.pow_add, hsum]
        _ = (beVal (2 ^ 5) R.2.2 * 2 ^ R.2.1 + R.1 % 2 ^ R.2.1) * 2 ^ (5 - R.2.1) := by ring
        _ = beVal (2 ^ 8) x * 2 ^ (5 - R.2.1) := by rw [r4]
    obtain ⟨s1, s2, s3, s4⟩ :=
      cbLoop_spec 5 8 (by omega) (R.2.2 ++ [(R.1 <<< (5 - R.2.1)) &&& (2 ^ 5 - 1)]) 0 0 hy
        (by omega)
    set S := cbLoop 5 8 (2 ^ (5 + 8 - 1) - 1) (2 ^ 8 - 1)
      (R.2.2 ++ [(R.1 <<< (5 - R.2.1)) &&& (2 ^ 5 - 1)]) 0 0 with hSdef
    simp only [Nat.pow_zero, Nat.mod_one, Nat.zero_mul, Nat.zero_add,
      List.length_append, List.length_singleton] at s2 s4
    have hS21 : S.2.1 = 5 - R.2.1 := by omega
    have hSlen : S.2.2.length = x.length := by omega
    rw [hvaly, ← hS21] at s4
    have hrem : S.1 % 2 ^ S.2.1 = 0 := by
      have h1 : (2 ^ S.2.1 * beVal (2 ^ 8) S.2.2 + S.1 % 2 ^ S.2.1) % 2 ^ S.2.1
          = (2 ^ S.2.1 * beVal (2 ^ 8) x) % 2 ^ S.2.1 := by
        rw [Nat.mul_comm (2 ^ S.2.1) (beVal (2 ^ 8) S.2.2),
          Nat.mul_comm (2 ^ S.2.1) (beVal (2 ^ 8) x), s4]
      rw [Nat.mul_add_mod, Nat.mul_mod_right, Nat.mod_mod_of_dvd _ (dvd_refl _)] at h1
      exact h1
    have hval2 : beVal (2 ^ 8) S.2.2 * 2 ^ S.2.1 = beVal (2 ^ 8) x * 2 ^ S.2.1 := by omega
    have hbe : beVal (2 ^ 8) S.2.2 = beVal (2 ^ 8) x :=
      Nat.eq_of_mul_eq_mul_right (Nat.pos_pow_of_pos _ (by omega)) hval2
    have hSx : S.2.2 = x := beVal_inj (2 ^ 8) (by omega) S.2.2 x hSlen s3 hx hbe
    have hmask : (S.1 <<< (8 - S.2.1)) &&& (2 ^ 8 - 1) = 0 := by
      rw [shl_and_mask S.1 (show 8 - S.2.1 ≤ 8 by omega)]
      have h88 : 8 - (8 - S.2.1) = S.2.1 := by omega
      rw [h88, hrem, Nat.zero_mul]
    have hdec : ConvertBits 5 8 false (R.2.2 ++ [(R.1 <<< (5 - R.2.1)) &&& (2 ^ 5 - 1)])
        = if 5 ≤ S.2.1 ∨ ((S.1 <<< (8 - S.2.1)) &&& (2 ^ 8 - 1)) ≠ 0 then none
          else some S.2.2 := by
      rw [hSdef]
      simp only [ConvertBits, Bool.false_eq_true, if_false]
    have hcond : ¬ (5 ≤ S.2.1 ∨ ((S.1 <<< (8 - S.2.1)) &&& (2 ^ 8 - 1)) ≠ 0) := by
      push_neg
      exact ⟨by omega, hmask⟩
    have hylen : (R.2.2 ++ [(R.1 <<< (5 - R.2.1)) &&& (2 ^ 5 - 1)]).length
        = R.2.2.length + 1 := by
      simp
    refine ⟨R.2.2 ++ [(R.1 <<< (5 - R.2.1)) &&& (2 ^ 5 - 1)], ?_, ?_, hy,
      by rw [hylen]; omega, by rw [hylen]; omega⟩
    · rw [henc, if_pos hb]
    · rw [hdec, if_neg hcond, hSx]

/-- C3: `ConvertBits<8,5,true>` (byte stream to 5-bit symbols with padding)
followed by `ConvertBits<5,8,false>` (strict unpadding back to bytes) is the
identity on every byte sequence: the first conversion always succeeds, and the
second succeeds on its output and emits exactly the original bytes. -/
theorem convertBits_roundtrip (x : List Nat) (hx : ∀ v ∈ x, v < 2 ^ 8) :
    ∃ y, ConvertBits 8 5 true x = some y ∧ ConvertBits 5 8 false y = some x := by
  obtain ⟨y, h1, h2, -, -, -⟩ := convertBits_id x hx
  exact ⟨y, h1, h2⟩

/-- Witness for C3 at a concrete byte sequence. -/
theorem convertBits_roundtrip_witness :
    (∀ v ∈ [255, 0, 171], v < 2 ^ 8)
    ∧ ∃ y, ConvertBits 8 5 true [255, 0, 171] = some y
        ∧ ConvertBits 5 8 false y = some [255, 0, 171] :=
  ⟨by decide, convertBits_roundtrip [255, 0, 171] (by decide)⟩

/-! ## Base58 round trip -/

theorem shaRound_len (st : List Nat) (kw : Nat × Nat) : (shaRound st kw).length = 8 := by
  simp [shaRound]

theorem foldl_shaRound_len (l : List (Nat × Nat)) : ∀ st : List Nat,
    (l.foldl shaRound st).length = 8 ∨ l.foldl shaRound st = st := by
  induction l with
  | nil =>
    intro st
    right
    rfl
  | cons a t ih =>
    intro st
    simp only [List.foldl_cons]
    rcases ih (shaRound st a) with h | h
    · left
      exact h
    · left
      rw [h]
      exact shaRound_len st a

theorem shaCompress_len (st block : List Nat) (h : st.length = 8) :
    (shaCompress st block).length = 8 := by
  simp only [shaCompress, List.length_map, List.length_zip, h]
  rcases foldl_shaRound_len (shaK.zip (shaExtend 48 block)) st with h2 | h2
  · rw [h2]
    omega
  · rw [h2, h]
    omega

theorem foldl_shaCompress_len (bs : List (List Nat)) : ∀ st : List Nat, st.length = 8 →
    (bs.foldl shaCompress st).length = 8 := by
  induction bs with
  | nil =>
    intro st h
    exact h
  | cons b t ih =>
    intro st h
    simp only [List.foldl_cons]
    exact ih _ (shaCompress_len st b h)

theorem flatMap4_len (l : List Nat) :
    (l.flatMap (fun w => [w / 16777216 % 256, w / 65536 % 256, w / 256 % 256, w % 256])).length
      = 4 * l.length := by
  induction l with
  | nil => rfl
  | cons a t ih =>
    simp only [List.flatMap_cons, List.length_append, List.length_cons, ih, List.length_nil]
    omega

theorem sha256_len (m : List Nat) : (sha256 m).length = 32 := by
  simp only [sha256]
  rw [flatMap4_len, foldl_shaCompress_len _ shaH0 (by rfl)]

theorem sha256_bytes_lt (m : List Nat) : ∀ b ∈ sha256 m, b < 256 := by
  intro b hb
  simp only [sha256, List.mem_flatMap] at hb
  obtain ⟨w, -, hw⟩ := hb
  simp only [List.mem_cons, List.not_mem_nil, or_false] at hw
  rcases hw with h | h | h | h <;> subst h <;> exact Nat.mod_lt _ (by omega)

theorem checksum4_len (p : List Nat) : (checksum4 p).length = 4 := by
  simp [checksum4, sha256_len]

theorem checksum4_lt (p : List Nat) : ∀ b ∈ checksum4 p, b < 256 := by
  intro b hb
  exact sha256_bytes_lt _ b (List.mem_of_mem_take hb)

theorem digitsRevF_eq_digits (B : Nat) (hB : 2 ≤ B) :
    ∀ fuel n, n ≤ fuel → digitsRevF B fuel n = Nat.digits B n := by
  intro fuel
  induction fuel with
  | zero =>
    intro n hn
    have h0 : n = 0 := by omega
    subst h0
    simp [digitsRevF, Nat.digits_zero]
  | succ fuel ih =>
    intro n hn
    by_cases h0 : n = 0
    · subst h0
      simp [digitsRevF, Nat.digits_zero]
    · have hdiv : n / B < n := Nat.div_lt_self (Nat.pos_of_ne_zero h0) (by omega)
      rw [digitsRevF, if_neg h0, Nat.digits_def' (by omega : 1 < B) (Nat.pos_of_ne_zero h0),
        ih (n / B) (by omega)]

theorem beVal_eq_ofDigits (B : Nat) : ∀ l : List Nat, beVal B l = Nat.ofDigits B l.reverse := by
  intro l
  induction l with
  | nil => simp [beVal, Nat.ofDigits_nil]
  | cons d t ih =>
    rw [beVal_cons, ih, List.reverse_cons, Nat.ofDigits_append]
    simp only [Nat.ofDigits_singleton, List.length_reverse, Nat.cast_id]
    ring

theorem beVal_natToBE (B : Nat) (hB : 2 ≤ B) (n : Nat) : beVal B (natToBE B n) = n := by
  rw [natToBE, beVal_eq_ofDigits, List.reverse_reverse,
    digitsRevF_eq_digits B hB n n le_rfl, Nat.ofDigits_digits]

theorem natToBE_beVal (B : Nat) (hB : 2 ≤ B) (l : List Nat) (hl : ∀ d ∈ l, d < B)
    (hhead : l.head? ≠ some 0) : natToBE B (beVal B l) = l := by
  rw [beVal_eq_ofDigits, natToBE, digitsRevF_eq_digits B hB _ _ le_rfl,
    Nat.digits_ofDigits B (by omega) l.reverse
      (fun d hd => hl d (List.mem_reverse.1 hd)) ?_, List.reverse_reverse]
  intro hne
  rw [List.getLast_reverse]
  intro hc
  rcases l with - | ⟨a, t⟩
  · simp at hne
  · simp only [List.head_cons] at hc
    rw [hc] at hhead
    simp at hhead

theorem natToBE_digits_lt (B n : Nat) (hB : 2 ≤ B) : ∀ d ∈ natToBE B n, d < B := by
  intro d hd
  rw [natToBE, digitsRevF_eq_digits B hB n n le_rfl, List.mem_reverse] at hd
  exact Nat.digits_lt_base (by omega) hd

theorem natToBE_head (B n : Nat) (hB : 2 ≤ B) (hn : n ≠ 0) :
    (natToBE B n).head? ≠ some 0 := by
  rw [natToBE, digitsRevF_eq_digits B hB n n le_rfl, List.head?_reverse]
  have hne : Nat.digits B n ≠ [] := Nat.digits_ne_nil_iff_ne_zero.2 hn
  rw [List.getLast?_eq_getLast _ hne]
  intro hc
  exact Nat.getLast_digit_ne_zero B hn (Option.some.inj hc)

theorem replicate_leadCount_append (v : Nat) : ∀ l : List Nat,
    List.replicate (leadCount v l) v ++ l.drop (leadCount v l) = l := by
  intro l
  induction l with
  | nil => rfl
  | cons b r ih =>
    by_cases hb : b = v
    · subst hb
      simp only [leadCount, eq_self_iff_true, if_true, List.replicate_succ, List.cons_append,
        List.drop_succ_cons]
      rw [ih]
    · simp [leadCount, if_neg hb]

theorem leadCount_replicate_append (v z : Nat) (t : List Nat)
    (ht : t.head? ≠ some v) : leadCount v (List.replicate z v ++ t) = z := by
  induction z with
  | zero =>
    simp only [List.replicate_zero, List.nil_append]
    rcases t with - | ⟨b, r⟩
    · rfl
    · have hbv : b ≠ v := by
        intro h
        rw [h] at ht
        simp at ht
      simp [leadCount, hbv]
  | succ z ih =>
    simp only [List.replicate_succ, List.cons_append, leadCount, eq_self_iff_true, if_true,
      List.append_eq, ih]

theorem drop_leadCount_head (v : Nat) : ∀ l : List Nat,
    (l.drop (leadCount v l)).head? ≠ some v := by
  intro l
  induction l with
  | nil => simp
  | cons b r ih =>
    by_cases hb : b = v
    · subst hb
      simp only [leadCount, if_pos rfl, List.drop_succ_cons]
      exact ih
    · simp only [leadCount, if_neg hb, List.drop_zero, List.head?_cons]
      intro hc
      exact hb (Option.some.inj hc)

theorem mapM_map_eq (f : Nat → Option Nat) (g : Nat → Nat) (l : List Nat)
    (h : ∀ d ∈ l, f (g d) = some d) : (l.map g).mapM f = some l := by
  induction l with
  | nil => rfl
  | cons d t ih =>
    simp only [List.map_cons, List.mapM_cons, h d (by simp),
      ih (fun d hd => h d (by simp [hd])), Option.bind_some, Option.map_some]
    rfl

theorem b58Val_enc : ∀ d < 58, b58Val (B58CHARS.getD d 0) = some d := by decide

theorem b58_enc_ne_49 : ∀ d < 58, d ≠ 0 → B58CHARS.getD d 0 ≠ 49 := by decide

theorem b58Val_49 : b58Val 49 = some 0 := by decide

theorem decodeBase58_encodeBase58 (x : List Nat) (hx : ∀ v ∈ x, v < 256) (maxLen : Nat)
    (hlen : x.length ≤ maxLen) : decodeBase58 (encodeBase58 x) maxLen = some x := by
  have hdlt : ∀ d ∈ natToBE 58 (beVal 256 (x.drop (leadCount 0 x))), d < 58 :=
    natToBE_digits_lt 58 _ (by omega)
  have hmapM : (List.replicate (leadCount 0 x) 49
      ++ (natToBE 58 (beVal 256 (x.drop (leadCount 0 x)))).map (fun d => B58CHARS.getD d 0)).mapM
        b58Val
      = some (List.replicate (leadCount 0 x) 0
          ++ natToBE 58 (beVal 256 (x.drop (leadCount 0 x)))) := by
    rw [List.mapM_append]
    have h1 : (List.replicate (leadCount 0 x) 49).mapM b58Val
        = some (List.replicate (leadCount 0 x) 0) := by
      have hrw : List.replicate (leadCount 0 x) 49
          = (List.replicate (leadCount 0 x) 0).map (fun d => B58CHARS.getD d 0) := by
        rw [List.map_replicate]
        rfl
      rw [hrw]
      exact mapM_map_eq b58Val _ _ (fun d hd => by
        rw [List.eq_of_mem_replicate hd]
        exact b58Val_enc 0 (by omega))
    have h2 : ((natToBE 58 (beVal 256 (x.drop (leadCount 0 x)))).map
        (fun d => B58CHARS.getD d 0)).mapM b58Val
        = some (natToBE 58 (beVal 256 (x.drop (leadCount 0 x)))) :=
      mapM_map_eq b58Val _ _ (fun d hd => b58Val_enc d (hdlt d hd))
    rw [h1, h2]
    rfl
  have hlead : leadCount 49 (List.replicate (leadCount 0 x) 49
      ++ (natToBE 58 (beVal 256 (x.drop (leadCount 0 x)))).map (fun d => B58CHARS.getD d 0))
      = leadCount 0 x := by
    apply leadCount_replicate_append
    rcases hN : natToBE 58 (beVal 256 (x.drop (leadCount 0 x))) with - | ⟨d0, ds⟩
    · simp
    · have hd0 : d0 < 58 := hdlt d0 (by rw [hN]; simp)
      have hd0ne : d0 ≠ 0 := by
        have := natToBE_head 58 (beVal 256 (x.drop (leadCount 0 x))) (by omega) ?_
        · rw [hN] at this
          simp only [List.head?_cons] at this
          intro hc
          rw [hc] at this
          exact this rfl
        · intro hz
          rw [hz] at hN
          simp [natToBE, digitsRevF] at hN
      simp only [List.map_cons, List.head?_cons]
      intro hc
      exact b58_enc_ne_49 d0 hd0 hd0ne (Option.some.inj hc)
  rw [decodeBase58, encodeBase58]
  simp only
  rw [hmapM]
  simp only
  rw [hlead, List.drop_left' (List.length_replicate _ _), beVal_natToBE 58 (by omega),
    natToBE_beVal 256 (by omega) _ (fun d hd => hx d (List.mem_of_mem_drop hd))
      (drop_leadCount_head 0 x), replicate_leadCount_append]
  rw [if_neg (by omega)]

theorem decodeBase58Check_encodeBase58Check (p : List Nat) (hp : ∀ v ∈ p, v < 256)
    (maxLen : Nat) (hlen : p.length ≤ maxLen) :
    decodeBase58Check (encodeBase58Check p) maxLen = some p := by
  have hfull : ∀ v ∈ p ++ checksum4 p, v < 256 := by
    intro v hv
    rcases List.mem_append.1 hv with hv | hv
    · exact hp v hv
    · exact checksum4_lt p v hv
  have hflen : (p ++ checksum4 p).length = p.length + 4 := by
    rw [List.length_append, checksum4_len]
  rw [decodeBase58Check, encodeBase58Check,
    decodeBase58_encodeBase58 (p ++ checksum4 p) hfull (maxLen + 4) (by omega)]
  simp only
  rw [if_neg (by omega), hflen]
  have htk : (p ++ checksum4 p).take (p.length + 4 - 4) = p := by
    simp [List.take_left]
  have hdr : (p ++ checksum4 p).drop (p.length + 4 - 4) = checksum4 p := by
    simp [List.drop_left]
  rw [htk, hdr, if_pos rfl]

/-! ## Bech32 round trip -/

theorem xor_shiftRight (a b n : Nat) : (a ^^^ b) >>> n = (a >>> n) ^^^ (b >>> n) := by
  apply Nat.eq_of_testBit_eq
  intro i
  simp [Nat.testBit_shiftRight, Nat.testBit_xor]

theorem xor_shiftLeft (a b n : Nat) : (a ^^^ b) <<< n = (a <<< n) ^^^ (b <<< n) := by
  apply Nat.eq_of_testBit_eq
  intro i
  simp only [Nat.testBit_shiftLeft, Nat.testBit_xor]
  cases decide (i ≥ n) <;> simp

theorem ite_xor_testBit (x y : Nat) (i : Nat) (C : Nat) :
    (if (x ^^^ y).testBit i then C else 0)
      = (if x.testBit i then C else 0) ^^^ (if y.testBit i then C else 0) := by
  cases hx : x.testBit i <;> cases hy : y.testBit i <;>
    simp [Nat.testBit_xor, hx, hy, Nat.xor_self]

theorem xor14 (x1 x2 y1 y2 a0 b0 a1 b1 a2 b2 a3 b3 a4 b4 : Nat) :
    ((((((x1 ^^^ x2) ^^^ (y1 ^^^ y2)) ^^^ (a0 ^^^ b0)) ^^^ (a1 ^^^ b1)) ^^^ (a2 ^^^ b2))
        ^^^ (a3 ^^^ b3)) ^^^ (a4 ^^^ b4)
      = (((((x1 ^^^ y1) ^^^ a0) ^^^ a1) ^^^ a2) ^^^ a3) ^^^ a4
        ^^^ ((((((x2 ^^^ y2) ^^^ b0) ^^^ b1) ^^^ b2) ^^^ b3) ^^^ b4) := by
  apply Nat.eq_of_testBit_eq
  intro i
  simp only [Nat.testBit_xor]
  simp only [Bool.xor_assoc]
  simp only [Bool.xor_comm, Bool.xor_left_comm]

theorem polymodStep_linear (a b v w : Nat) :
    polymodStep (a ^^^ b) (v ^^^ w) = polymodStep a v ^^^ polymodStep b w := by
  simp only [polymodStep]
  rw [Nat.and_xor_distrib_right, xor_shiftLeft, xor_shiftRight,
    ite_xor_testBit (a >>> 25) (b >>> 25) 0 0x3b6a57b2,
    ite_xor_testBit (a >>> 25) (b >>> 25) 1 0x26508e6d,
    ite_xor_testBit (a >>> 25) (b >>> 25) 2 0x1ea119fa,
    ite_xor_testBit (a >>> 25) (b >>> 25) 3 0x3d4233dd,
    ite_xor_testBit (a >>> 25) (b >>> 25) 4 0x2a1462b3]
  exact xor14 _ _ _ _ _ _ _ _ _ _ _ _ _ _

theorem foldl_polymodStep_linear : ∀ (ls ws : List Nat) (a b : Nat), ls.length = ws.length →
    List.foldl polymodStep (a ^^^ b) (List.zipWith (fun x y => x ^^^ y) ls ws)
      = List.foldl polymodStep a ls ^^^ List.foldl polymodStep b ws := by
  intro ls
  induction ls with
  | nil =>
    intro ws a b h
    have hw : ws = [] := List.length_eq_zero.1 h.symm
    subst hw
    rfl
  | cons l lt ih =>
    intro ws a b h
    rcases ws with - | ⟨w, wt⟩
    · simp at h
    · simp only [List.zipWith_cons_cons, List.foldl_cons]
      rw [polymodStep_linear]
      exact ih wt _ _ (by simpa using h)

theorem zipWith_zero_xor : ∀ l : List Nat,
    List.zipWith (fun x y => x ^^^ y) (List.replicate l.length 0) l = l := by
  intro l
  induction l with
  | nil => rfl
  | cons a t ih =>
    simp only [List.length_cons, List.replicate_succ, List.zipWith_cons_cons, ih,
      Nat.zero_xor]

theorem polymodStep_small (c v : Nat) (hc : c < 2 ^ 25) (hv : v < 2 ^ 5) :
    polymodStep c v = c * 2 ^ 5 + v := by
  simp only [polymodStep]
  have hb : c >>> 25 = 0 := by
    rw [Nat.shiftRight_eq_div_pow]
    exact Nat.div_eq_of_lt hc
  have hm : c &&& 0x1ffffff = c := by
    have h25 : (0x1ffffff : Nat) = 2 ^ 25 - 1 := by norm_num
    rw [h25, and_mask_eq_mod, Nat.mod_eq_of_lt hc]
  rw [hb, hm]
  simp only [Nat.zero_testBit, if_false, Nat.xor_zero]
  -- (c <<< 5) ^^^ v = c * 2 ^ 5 + v
  rw [← lor_shift_eq_add c hv]
  apply Nat.eq_of_testBit_eq
  intro i
  simp only [Nat.testBit_xor, Nat.testBit_or, Nat.testBit_shiftLeft]
  by_cases hik : 5 ≤ i
  · have hvb : v.testBit i = false :=
      Nat.testBit_lt_two_pow (lt_of_lt_of_le hv (Nat.pow_le_pow_right (by omega) hik))
    simp [hvb]
  · have h5 : decide (i ≥ 5) = false := by
      simp
      omega
    simp [h5]

theorem chunkStep (p m : Nat) : (p / 2 ^ (m + 5)) * 2 ^ 5 + (p / 2 ^ m) % 2 ^ 5 = p / 2 ^ m := by
  have h1 : p / 2 ^ (m + 5) = p / 2 ^ m / 2 ^ 5 := by
    rw [Nat.div_div_eq_div_mul, ← Nat.pow_add]
  rw [h1, Nat.mul_comm, Nat.div_add_mod]

theorem fold_chunks (p : Nat) (hp : p < 2 ^ 30) :
    List.foldl polymodStep 0
      ((List.range 6).map (fun i => (p >>> (5 * (5 - i))) &&& 31)) = p := by
  have hr : (List.range 6).map (fun i => (p >>> (5 * (5 - i))) &&& 31)
      = [(p >>> 25) &&& 31, (p >>> 20) &&& 31, (p >>> 15) &&& 31,
         (p >>> 10) &&& 31, (p >>> 5) &&& 31, (p >>> 0) &&& 31] := rfl
  have h31 : (31 : Nat) = 2 ^ 5 - 1 := by norm_num
  rw [hr]
  simp only [h31, shr_and_mask]
  have hc : ∀ s, p / 2 ^ s % 2 ^ 5 < 2 ^ 5 := fun s => Nat.mod_lt _ (by omega)
  have hds : ∀ s, 5 ≤ s → p / 2 ^ s < 2 ^ 25 := by
    intro s hs
    rw [Nat.div_lt_iff_lt_mul (Nat.pos_pow_of_pos _ (by omega))]
    calc p < 2 ^ 30 := hp
      _ ≤ 2 ^ 25 * 2 ^ s := by
          rw [← Nat.pow_add]
          exact Nat.pow_le_pow_right (by omega) (by omega)
  have e1 : polymodStep 0 (p / 2 ^ 25 % 2 ^ 5) = p / 2 ^ 25 := by
    rw [polymodStep_small 0 _ (by omega) (hc 25), Nat.zero_mul, Nat.zero_add,
      Nat.mod_eq_of_lt]
    rw [Nat.div_lt_iff_lt_mul (Nat.pos_pow_of_pos _ (by omega)), ← Nat.pow_add]
    exact hp
  have estep : ∀ m : Nat, polymodStep (p / 2 ^ (m + 5)) (p / 2 ^ m % 2 ^ 5) = p / 2 ^ m := by
    intro m
    rw [polymodStep_small _ _ (hds (m + 5) (by omega)) (hc m)]
    exact chunkStep p m
  have e2 := estep 20
  have e3 := estep 15
  have e4 := estep 10
  have e5 := estep 5
  have e6 := estep 0
  rw [show (20 : Nat) + 5 = 25 from rfl] at e2
  rw [show (15 : Nat) + 5 = 20 from rfl] at e3
  rw [show (10 : Nat) + 5 = 15 from rfl] at e4
  rw [show (5 : Nat) + 5 = 10 from rfl] at e5
  rw [show (0 : Nat) + 5 = 5 from rfl] at e6
  simp only [List.foldl_cons, List.foldl_nil]
  rw [e1, e2, e3, e4, e5, e6, Nat.pow_zero, Nat.div_one]

theorem polymodStep_lt (c v : Nat) (hv : v < 2 ^ 30) : polymodStep c v < 2 ^ 30 := by
  simp only [polymodStep]
  have h1 : ((c &&& 0x1ffffff) <<< 5) < 2 ^ 30 := by
    have h25 : (0x1ffffff : Nat) = 2 ^ 25 - 1 := by norm_num
    rw [h25, and_mask_eq_mod, Nat.shiftLeft_eq]
    have : c % 2 ^ 25 < 2 ^ 25 := Nat.mod_lt _ (by omega)
    calc c % 2 ^ 25 * 2 ^ 5 < 2 ^ 25 * 2 ^ 5 :=
          mul_lt_mul_of_pos_right this (by omega)
      _ = 2 ^ 30 := by norm_num
  have hif : ∀ (b : Bool) (C : Nat), C < 2 ^ 30 → (if b then C else 0) < 2 ^ 30 := by
    intro b C hC
    cases b
    · simpa using Nat.pos_pow_of_pos 30 (by omega)
    · simpa using hC
  exact Nat.xor_lt_two_pow
    (Nat.xor_lt_two_pow
      (Nat.xor_lt_two_pow
        (Nat.xor_lt_two_pow
          (Nat.xor_lt_two_pow
            (Nat.xor_lt_two_pow h1 hv)
            (hif _ _ (by norm_num)))
          (hif _ _ (by norm_num)))
        (hif _ _ (by norm_num)))
      (hif _ _ (by norm_num)))
    (hif _ _ (by norm_num))

theorem foldl_polymodStep_lt (vs : List Nat) : ∀ c : Nat, c < 2 ^ 30 →
    (∀ v ∈ vs, v < 2 ^ 30) → vs.foldl polymodStep c < 2 ^ 30 := by
  induction vs with
  | nil =>
    intro c hc hv
    exact hc
  | cons a t ih =>
    intro c hc hv
    simp only [List.foldl_cons]
    exact ih _ (polymodStep_lt c a (hv a (by simp))) (fun v hvm => hv v (by simp [hvm]))

theorem bech32Polymod_lt (vs : List Nat) (h : ∀ v ∈ vs, v < 2 ^ 30) :
    bech32Polymod vs < 2 ^ 30 :=
  foldl_polymodStep_lt vs 1 (by norm_num) h

theorem hrpExpand_lt (hrp : List Nat) (hc : ∀ c ∈ hrp, c ≤ 126) :
    ∀ v ∈ hrpExpand hrp, v < 2 ^ 30 := by
  intro v hv
  simp only [hrpExpand, List.append_assoc, List.mem_append, List.mem_map, List.mem_cons,
    List.not_mem_nil, or_false] at hv
  rcases hv with ⟨c, hcm, hce⟩ | hv | ⟨c, hcm, hce⟩
  · have := hc c hcm
    rw [← hce, Nat.shiftRight_eq_div_pow]
    have h2 : c / 2 ^ 5 ≤ c := Nat.div_le_self _ _
    omega
  · omega
  · have h2 : c &&& 31 ≤ 31 := Nat.and_le_right
    omega

theorem checksum_syms_lt (e : Bech32Enc) (hrp data : List Nat) :
    ∀ v ∈ bech32CreateChecksum e hrp data, v < 2 ^ 5 := by
  intro v hv
  simp only [bech32CreateChecksum, List.mem_map] at hv
  obtain ⟨i, -, rfl⟩ := hv
  exact lt_of_le_of_lt Nat.and_le_right (by norm_num)

theorem checksum_len (e : Bech32Enc) (hrp data : List Nat) :
    (bech32CreateChecksum e hrp data).length = 6 := by
  simp [bech32CreateChecksum]

theorem bech32Const_lt (e : Bech32Enc) : bech32Const e < 2 ^ 30 := by
  cases e <;> norm_num [bech32Const]

theorem polymod_checksum (e : Bech32Enc) (hrp data : List Nat)
    (hh : ∀ c ∈ hrp, c ≤ 126) (hd : ∀ v ∈ data, v < 2 ^ 5) :
    bech32Polymod (hrpExpand hrp ++ (data ++ bech32CreateChecksum e hrp data))
      = bech32Const e := by
  have hT : ∀ v ∈ hrpExpand hrp ++ data ++ [0, 0, 0, 0, 0, 0], v < 2 ^ 30 := by
    intro v hv
    rcases List.mem_append.1 hv with hv | hv
    · rcases List.mem_append.1 hv with hv | hv
      · exact hrpExpand_lt hrp hh v hv
      · have := hd v hv
        omega
    · simp only [List.mem_cons, List.not_mem_nil, or_false] at hv
      rcases hv with h | h | h | h | h | h <;> omega
  have hpm0 : bech32Polymod (hrpExpand hrp ++ data ++ [0, 0, 0, 0, 0, 0]) ^^^ bech32Const e
      < 2 ^ 30 :=
    Nat.xor_lt_two_pow (bech32Polymod_lt _ hT) (bech32Const_lt e)
  -- abbreviations
  have hsplit : bech32Polymod (hrpExpand hrp ++ (data ++ bech32CreateChecksum e hrp data))
      = List.foldl polymodStep
          (List.foldl polymodStep 1 (hrpExpand hrp ++ data))
          (bech32CreateChecksum e hrp data) := by
    rw [bech32Polymod, ← List.append_assoc, List.foldl_append]
  rw [hsplit]
  have hlen6 : (bech32CreateChecksum e hrp data).length = 6 := checksum_len e hrp data
  have hdecomp : List.foldl polymodStep
      (List.foldl polymodStep 1 (hrpExpand hrp ++ data))
      (bech32CreateChecksum e hrp data)
      = List.foldl polymodStep
          (List.foldl polymodStep 1 (hrpExpand hrp ++ data)) [0, 0, 0, 0, 0, 0]
        ^^^ List.foldl polymodStep 0 (bech32CreateChecksum e hrp data) := by
    have hz : List.zipWith (fun x y => x ^^^ y)
        (List.replicate (bech32CreateChecksum e hrp data).length 0)
        (bech32CreateChecksum e hrp data) = bech32CreateChecksum e hrp data :=
      zipWith_zero_xor _
    rw [hlen6] at hz
    have hrepl : (List.replicate 6 (0 : Nat)) = [0, 0, 0, 0, 0, 0] := rfl
    conv_lhs =>
      rw [← Nat.xor_zero (List.foldl polymodStep 1 (hrpExpand hrp ++ data)), ← hz]
    rw [← hrepl]
    exact foldl_polymodStep_linear (List.replicate 6 0) (bech32CreateChecksum e hrp data)
      _ 0 (by simp [hlen6])
  rw [hdecomp]
  have hfold0 : List.foldl polymodStep 0 (bech32CreateChecksum e hrp data)
      = bech32Polymod (hrpExpand hrp ++ data ++ [0, 0, 0, 0, 0, 0]) ^^^ bech32Const e := by
    rw [bech32CreateChecksum]
    exact fold_chunks _ hpm0
  have hfoldz : List.foldl polymodStep
      (List.foldl polymodStep 1 (hrpExpand hrp ++ data)) [0, 0, 0, 0, 0, 0]
      = bech32Polymod (hrpExpand hrp ++ data ++ [0, 0, 0, 0, 0, 0]) := by
    rw [bech32Polymod, List.append_assoc, List.foldl_append, List.foldl_append,
      List.foldl_append]
  rw [hfold0, hfoldz]
  rw [← Nat.xor_assoc, Nat.xor_self, Nat.zero_xor]

theorem b32Val_enc : ∀ v < 32, b32Val (B32CHARS.getD v 0) = some v := by decide

theorem b32_enc_ne49 : ∀ v < 32, B32CHARS.getD v 0 ≠ 49 := by decide

theorem b32_enc_not_upper : ∀ v < 32, isUpperC (B32CHARS.getD v 0) = false := by decide

theorem toLowerL_id (s : List Nat) (h : ∀ c ∈ s, isUpperC c = false) : toLowerL s = s := by
  rw [toLowerL]
  conv_rhs => rw [← List.map_id s]
  apply List.map_congr_left
  intro c hc
  simp [h c hc]

theorem splitLastOne_encode (hrp m : List Nat) (hm : ∀ c ∈ m, c ≠ 49) :
    splitLastOne (hrp ++ [49] ++ m) = some (hrp, m) := by
  have hrev : (hrp ++ [49] ++ m).reverse = m.reverse ++ (49 :: hrp.reverse) := by
    simp
  have hnone : m.reverse.findIdx? (fun c => c == 49) = none := by
    rw [List.findIdx?_eq_none_iff]
    intro x hx
    simp only [beq_eq_false_iff_ne, ne_eq]
    exact hm x (List.mem_reverse.1 hx)
  have hfind : (hrp ++ [49] ++ m).reverse.findIdx? (fun c => c == 49)
      = some m.length := by
    rw [hrev, List.findIdx?_append, hnone]
    simp [List.findIdx?_cons]
  rw [splitLastOne, hfind]
  simp only
  have hlen : (hrp ++ [49] ++ m).length = hrp.length + 1 + m.length := by
    simp
    omega
  have hpos : (hrp ++ [49] ++ m).length - 1 - m.length = hrp.length := by
    omega
  rw [hpos]
  congr 1
  rw [Prod.mk.injEq]
  constructor
  · rw [List.append_assoc, List.take_left' rfl]
  · rw [show hrp ++ [49] ++ m = (hrp ++ [49]) ++ m from by simp,
      List.drop_left' (by simp)]

theorem bech32_enc_dec (e : Bech32Enc) (hrp data : List Nat)
    (he : e ≠ .INVALID)
    (hh1 : 1 ≤ hrp.length) (hh83 : hrp.length ≤ 83)
    (hhc : ∀ c ∈ hrp, 33 ≤ c ∧ c ≤ 126 ∧ isUpperC c = false)
    (hd : ∀ v ∈ data, v < 2 ^ 5)
    (hlen : hrp.length + 1 + data.length + 6 ≤ 90) :
    bech32Decode (bech32Encode e hrp data) = ⟨e, hrp, data⟩ := by
  have hcs_lt := checksum_syms_lt e hrp data
  have hcs_len := checksum_len e hrp data
  have hall_lt : ∀ v ∈ data ++ bech32CreateChecksum e hrp data, v < 2 ^ 5 := by
    intro v hv
    rcases List.mem_append.1 hv with hv | hv
    · exact hd v hv
    · exact hcs_lt v hv
  have hnoup : ∀ c ∈ bech32Encode e hrp data, isUpperC c = false := by
    intro c hc
    rw [bech32Encode] at hc
    rcases List.mem_append.1 hc with hc | hc
    · rcases List.mem_append.1 hc with hc | hc
      · exact (hhc c hc).2.2
      · simp only [List.mem_singleton] at hc
        subst hc
        decide
    · obtain ⟨v, hvm, rfl⟩ := List.mem_map.1 hc
      exact b32_enc_not_upper v (hall_lt v hvm)
  have hanyup : (bech32Encode e hrp data).any isUpperC = false := by
    rw [List.any_eq_false]
    intro c hc
    rw [hnoup c hc]
    simp
  have hlen' : (bech32Encode e hrp data).length = hrp.length + 1 + (data.length + 6) := by
    rw [bech32Encode]
    simp [hcs_len]
    omega
  rw [bech32Decode]
  rw [if_neg (by
    simp only [hanyup, Bool.false_and, Bool.false_eq_true, false_or, hlen']
    omega)]
  have hsplit2 : splitLastOne (toLowerL (bech32Encode e hrp data))
      = some (hrp, (data ++ bech32CreateChecksum e hrp data).map
          (fun v => B32CHARS.getD v 0)) := by
    rw [toLowerL_id _ hnoup, bech32Encode]
    exact splitLastOne_encode hrp _ (by
      intro c hc
      obtain ⟨v, hvm, rfl⟩ := List.mem_map.1 hc
      exact b32_enc_ne49 v (hall_lt v hvm))
  simp only [hsplit2]
  rw [if_neg (by
    simp only [List.length_map, List.length_append, hcs_len, List.all_eq_true]
    push_neg
    refine ⟨by omega, by omega, ?_, by omega⟩
    intro c hc
    have := hhc c hc
    simp only [Bool.and_eq_true, decide_eq_true_eq]
    omega)]
  have hmm : ((data ++ bech32CreateChecksum e hrp data).map
      (fun v => B32CHARS.getD v 0)).mapM b32Val
      = some (data ++ bech32CreateChecksum e hrp data) :=
    mapM_map_eq b32Val _ _ (fun v hv => b32Val_enc v (hall_lt v hv))
  simp only [hmm]
  simp only [polymod_checksum e hrp data (fun c hc => (hhc c hc).2.1) hd]
  have htake : ((data ++ bech32CreateChecksum e hrp data).take
      ((data ++ bech32CreateChecksum e hrp data).length - 6)) = data := by
    rw [List.length_append, hcs_len]
    rw [show data.length + 6 - 6 = data.length from by omega]
    exact List.take_left' rfl
  cases e with
  | BECH32 =>
    rw [show bech32Const Bech32Enc.BECH32 = 1 from rfl, if_pos rfl, htake]
  | BECH32M =>
    rw [show bech32Const Bech32Enc.BECH32M = 0x2bc830a3 from rfl,
      if_neg (by norm_num), if_pos rfl, htake]
  | INVALID => exact absurd rfl he


/-! ## Script-shape inversions for the single-address kinds -/

theorem getD_drop_add (l : List Nat) (n i : Nat) : (l.drop n).getD i 0 = l.getD (n + i) 0 := by
  simp [List.getD, List.getElem?_drop]

theorem list_len1_eq (l : List Nat) (h : l.length = 1) : l = [l.getD 0 0] := by
  rcases l with - | ⟨a, - | ⟨b, t⟩⟩ <;> simp_all

theorem list_len2_eq (l : List Nat) (h : l.length = 2) : l = [l.getD 0 0, l.getD 1 0] := by
  rcases l with - | ⟨a, - | ⟨b, - | ⟨c, t⟩⟩⟩ <;> simp_all

theorem take2_eq (l : List Nat) (h : 2 ≤ l.length) : l.take 2 = [l.getD 0 0, l.getD 1 0] := by
  rcases l with - | ⟨a, - | ⟨b, t⟩⟩ <;> simp_all

theorem take3_eq (l : List Nat) (h : 3 ≤ l.length) :
    l.take 3 = [l.getD 0 0, l.getD 1 0, l.getD 2 0] := by
  rcases l with - | ⟨a, - | ⟨b, - | ⟨c, t⟩⟩⟩ <;> simp_all

theorem matchPKH_inv {s h : List Nat} (hm : MatchPayToPubkeyHash s = some h) :
    s.length = 25 ∧ s.getD 0 0 = OP_DUP ∧ s.getD 1 0 = OP_HASH160 ∧ s.getD 2 0 = 20
      ∧ s.getD 23 0 = OP_EQUALVERIFY ∧ s.getD 24 0 = OP_CHECKSIG
      ∧ h = (s.drop 3).take 20 := by
  rw [MatchPayToPubkeyHash] at hm
  split at hm
  · rename_i hc
    simp only [Option.some.injEq] at hm
    exact ⟨hc.1, hc.2.1, hc.2.2.1, hc.2.2.2.1, hc.2.2.2.2.1, hc.2.2.2.2.2, hm.symm⟩
  · exact absurd hm (by simp)

theorem p2pkh_script_eq {s : List Nat} (h25 : s.length = 25)
    (h0 : s.getD 0 0 = OP_DUP) (h1 : s.getD 1 0 = OP_HASH160) (h2 : s.getD 2 0 = 20)
    (h23 : s.getD 23 0 = OP_EQUALVERIFY) (h24 : s.getD 24 0 = OP_CHECKSIG) :
    s = [OP_DUP, OP_HASH160, 20] ++ (s.drop 3).take 20 ++ [OP_EQUALVERIFY, OP_CHECKSIG] := by
  have hdrop : s.drop 3 = (s.drop 3).take 20 ++ s.drop 23 := by
    conv_lhs => rw [← List.take_append_drop 20 (s.drop 3)]
    rw [List.drop_drop]
  have ht3 : s.take 3 = [OP_DUP, OP_HASH160, 20] := by
    rw [take3_eq s (by omega), h0, h1, h2]
  have hd23 : s.drop 23 = [OP_EQUALVERIFY, OP_CHECKSIG] := by
    have hl2 : (s.drop 23).length = 2 := by simp [h25]
    rw [list_len2_eq _ hl2, getD_drop_add, getD_drop_add, Nat.add_zero,
      show (23 : Nat) + 1 = 24 from rfl, h23, h24]
  conv_lhs => rw [← List.take_append_drop 3 s, hdrop, ht3, hd23]
  rw [List.append_assoc]

theorem isP2SH_inv {s : List Nat} (h : IsPayToScriptHash s = true) :
    s.length = 23 ∧ s.getD 0 0 = OP_HASH160 ∧ s.getD 1 0 = 20 ∧ s.getD 22 0 = OP_EQUAL := by
  simp only [IsPayToScriptHash, Bool.and_eq_true, decide_eq_true_eq] at h
  exact ⟨h.1.1.1, h.1.1.2, h.1.2, h.2⟩

theorem p2sh_script_eq {s : List Nat} (h23 : s.length = 23)
    (h0 : s.getD 0 0 = OP_HASH160) (h1 : s.getD 1 0 = 20) (h22 : s.getD 22 0 = OP_EQUAL) :
    s = [OP_HASH160, 20] ++ (s.drop 2).take 20 ++ [OP_EQUAL] := by
  have hdrop : s.drop 2 = (s.drop 2).take 20 ++ s.drop 22 := by
    conv_lhs => rw [← List.take_append_drop 20 (s.drop 2)]
    rw [List.drop_drop]
  have ht2 : s.take 2 = [OP_HASH160, 20] := by
    rw [take2_eq s (by omega), h0, h1]
  have hd22 : s.drop 22 = [OP_EQUAL] := by
    have hl1 : (s.drop 22).length = 1 := by simp [h23]
    rw [list_len1_eq _ hl1, getD_drop_add, Nat.add_zero, h22]
  conv_lhs => rw [← List.take_append_drop 2 s, hdrop, ht2, hd22]
  rw [List.append_assoc]

theorem isWitness_inv {s : List Nat} {wv : Nat} {wp : List Nat}
    (h : IsWitnessProgram s = some (wv, wp)) :
    4 ≤ s.length ∧ s.length ≤ 42
      ∧ (s.getD 0 0 = OP_0 ∨ (OP_1 ≤ s.getD 0 0 ∧ s.getD 0 0 ≤ OP_16))
      ∧ s.getD 1 0 + 2 = s.length ∧ wv = DecodeOP_N (s.getD 0 0) ∧ wp = s.drop 2 := by
  rw [IsWitnessProgram] at h
  split at h
  · exact absurd h (by simp)
  · rename_i hlen
    split at h
    · exact absurd h (by simp)
    · rename_i hver
      split at h
      · rename_i hl
        simp only [Option.some.injEq, Prod.mk.injEq] at h
        push_neg at hlen hver
        refine ⟨by omega, by omega, ?_, hl, h.1.symm, h.2.symm⟩
        by_cases hz : s.getD 0 0 = OP_0
        · exact Or.inl hz
        · obtain ⟨hb1, hb2⟩ := hver hz
          exact Or.inr ⟨by omega, by omega⟩
      · exact absurd h (by simp)

theorem witness_script_eq {s : List Nat} (h2 : 2 ≤ s.length) :
    s = [s.getD 0 0, s.getD 1 0] ++ s.drop 2 := by
  conv_lhs => rw [← List.take_append_drop 2 s, take2_eq s h2]

theorem decodeOPN_zero {op : Nat} (hr : op = OP_0 ∨ (OP_1 ≤ op ∧ op ≤ OP_16))
    (h : DecodeOP_N op = 0) : op = OP_0 := by
  rcases hr with h1 | h1
  · exact h1
  · rw [DecodeOP_N, OP_0, OP_1] at h
    rw [OP_1, OP_16] at h1
    rw [if_neg (by omega)] at h
    omega

theorem decodeOPN_one {op : Nat} (hr : op = OP_0 ∨ (OP_1 ≤ op ∧ op ≤ OP_16))
    (h : DecodeOP_N op = 1) : op = OP_1 := by
  rcases hr with h1 | h1
  · rw [DecodeOP_N, if_pos h1] at h
    omega
  · rw [DecodeOP_N, OP_0, OP_1] at h
    rw [OP_1, OP_16] at h1
    rw [OP_1]
    rw [if_neg (by omega)] at h
    omega

theorem solver_pkh_inv {s : List Nat} (h : (Solver s).1 = TxoutType.PUBKEYHASH) :
    ∃ hsh, MatchPayToPubkeyHash s = some hsh
      ∧ Solver s = (TxoutType.PUBKEYHASH, [hsh]) := by
  unfold Solver at h ⊢
  split at h
  · simp at h
  · rename_i h1
    rw [if_neg h1]
    split at h
    · rename_i wv wp hw
      rw [hw] at *
      split at h <;> try simp at h
      split at h <;> try simp at h
      split at h <;> try simp at h
      split at h <;> simp at h
    · rename_i hw
      rw [hw] at *
      split at h
      · simp at h
      · rename_i h2
        rw [if_neg h2]
        split at h
        · simp at h
        · rename_i hpk
          rw [hpk] at *
          split at h
          · rename_i hsh hh
            rw [hh]
            exact ⟨hsh, rfl, rfl⟩
          · rename_i hh
            rw [hh] at *
            split at h <;> simp at h

theorem solver_sh_inv {s : List Nat} (h : (Solver s).1 = TxoutType.SCRIPTHASH) :
    IsPayToScriptHash s = true
      ∧ Solver s = (TxoutType.SCRIPTHASH, [(s.drop 2).take 20]) := by
  unfold Solver at h ⊢
  split at h
  · rename_i hp
    exact ⟨hp, by rw [if_pos hp]⟩
  · rename_i h1
    rw [if_neg h1]
    split at h
    · rename_i wv wp hw
      rw [hw] at *
      split at h <;> try simp at h
      split at h <;> try simp at h
      split at h <;> try simp at h
      split at h <;> simp at h
    · rename_i hw
      rw [hw] at *
      split at h
      · simp at h
      · rename_i h2
        rw [if_neg h2]
        split at h
        · simp at h
        · rename_i hpk
          rw [hpk] at *
          split at h
          · simp at h
          · rename_i hh
            rw [hh] at *
            split at h <;> simp at h

theorem solver_w0k_inv {s : List Nat} (h : (Solver s).1 = TxoutType.WITNESS_V0_KEYHASH) :
    ∃ wp, IsWitnessProgram s = some (0, wp) ∧ wp.length = 20
      ∧ Solver s = (TxoutType.WITNESS_V0_KEYHASH, [wp]) := by
  unfold Solver at h ⊢
  split at h
  · simp at h
  · rename_i h1
    rw [if_neg h1]
    split at h
    · rename_i wv wp hw
      rw [hw] at *
      split at h
      · rename_i hc
        refine ⟨wp, ?_, hc.2, ?_⟩
        · rw [← hc.1]
        · rw [if_pos hc]
      · split at h <;> try simp at h
        split at h <;> try simp at h
        split at h <;> simp at h
    · rename_i hw
      rw [hw] at *
      split at h
      · simp at h
      · rename_i h2
        rw [if_neg h2]
        split at h
        · simp at h
        · rename_i hpk
          rw [hpk] at *
          split at h
          · simp at h
          · rename_i hh
            rw [hh] at *
            split at h <;> simp at h

theorem solver_w0s_inv {s : List Nat} (h : (Solver s).1 = TxoutType.WITNESS_V0_SCRIPTHASH) :
    ∃ wp, IsWitnessProgram s = some (0, wp) ∧ wp.length = 32
      ∧ Solver s = (TxoutType.WITNESS_V0_SCRIPTHASH, [wp]) := by
  unfold Solver at h ⊢
  split at h
  · simp at h
  · rename_i h1
    rw [if_neg h1]
    split at h
    · rename_i wv wp hw
      rw [hw] at *
      split at h
      · simp at h
      · rename_i hc1
        split at h
        · rename_i hc
          refine ⟨wp, ?_, hc.2, ?_⟩
          · rw [← hc.1]
          · rw [if_neg hc1, if_pos hc]
        · split at h <;> try simp at h
          split at h <;> simp at h
    · rename_i hw
      rw [hw] at *
      split at h
      · simp at h
      · rename_i h2
        rw [if_neg h2]
        split at h
        · simp at h
        · rename_i hpk
          rw [hpk] at *
          split at h
          · simp at h
          · rename_i hh
            rw [hh] at *
            split at h <;> simp at h

theorem solver_w1t_inv {s : List Nat} (h : (Solver s).1 = TxoutType.WITNESS_V1_TAPROOT) :
    ∃ wp, IsWitnessProgram s = some (1, wp) ∧ wp.length = 32
      ∧ Solver s = (TxoutType.WITNESS_V1_TAPROOT, [wp]) := by
  unfold Solver at h ⊢
  split at h
  · simp at h
  · rename_i h1
    rw [if_neg h1]
    split at h
    · rename_i wv wp hw
      rw [hw] at *
      split at h
      · simp at h
      · rename_i hc1
        split at h
        · simp at h
        · rename_i hc2
          split at h
          · rename_i hc
            refine ⟨wp, ?_, hc.2, ?_⟩
            · rw [← hc.1]
            · rw [if_neg hc1, if_neg hc2, if_pos hc]
          · split at h <;> simp at h
    · rename_i hw
      rw [hw] at *
      split at h
      · simp at h
      · rename_i h2
        rw [if_neg h2]
        split at h
        · simp at h
        · rename_i hpk
          rw [hpk] at *
          split at h
          · simp at h
          · rename_i hh
            rw [hh] at *
            split at h <;> simp at h

/-! ## DecodeDestination on the four produced address shapes -/

theorem decode_dest_pkh (params : Params) (h20 : List Nat)
    (hp1 : params.pubkeyAddrPre.length = 1) (hpb : ∀ v ∈ params.pubkeyAddrPre, v < 256)
    (h20l : h20.length = 20) (h20b : ∀ v ∈ h20, v < 256)
    (hne : toLowerL ((encodeBase58Check (params.pubkeyAddrPre ++ h20)).take
        params.hrp.length) ≠ params.hrp) :
    DecodeDestination (encodeBase58Check (params.pubkeyAddrPre ++ h20)) [] params
      = (true, [OP_DUP, OP_HASH160, 20] ++ h20 ++ [OP_EQUALVERIFY, OP_CHECKSIG], "") := by
  have hbytes : ∀ v ∈ params.pubkeyAddrPre ++ h20, v < 256 := by
    intro v hv
    rcases List.mem_append.1 hv with hv | hv
    · exact hpb v hv
    · exact h20b v hv
  have hlen : (params.pubkeyAddrPre ++ h20).length = 21 := by
    simp [hp1, h20l]
  have hb58 : decodeBase58Check (encodeBase58Check (params.pubkeyAddrPre ++ h20)) 21
      = some (params.pubkeyAddrPre ++ h20) :=
    decodeBase58Check_encodeBase58Check _ hbytes 21 (by omega)
  rw [DecodeDestination, if_pos (beq_eq_false_iff_ne.mpr hne)]
  simp only [hb58]
  rw [if_pos ⟨by rw [hlen, hp1],
    List.isPrefixOf_iff_prefix.mpr (List.prefix_append _ _)⟩]
  rw [List.drop_left]
  simp [insertAtL, EncodePushBytes_N]

theorem decode_dest_sh (params : Params) (h20 : List Nat)
    (hp1 : params.pubkeyAddrPre.length = 1) (hsc1 : params.scriptAddrPre.length = 1)
    (hpre : params.pubkeyAddrPre ≠ params.scriptAddrPre)
    (hscb : ∀ v ∈ params.scriptAddrPre, v < 256)
    (h20l : h20.length = 20) (h20b : ∀ v ∈ h20, v < 256)
    (hne : toLowerL ((encodeBase58Check (params.scriptAddrPre ++ h20)).take
        params.hrp.length) ≠ params.hrp) :
    DecodeDestination (encodeBase58Check (params.scriptAddrPre ++ h20)) [] params
      = (true, [OP_HASH160, 20] ++ h20 ++ [OP_EQUAL], "") := by
  have hbytes : ∀ v ∈ params.scriptAddrPre ++ h20, v < 256 := by
    intro v hv
    rcases List.mem_append.1 hv with hv | hv
    · exact hscb v hv
    · exact h20b v hv
  have hlen : (params.scriptAddrPre ++ h20).length = 21 := by
    simp [hsc1, h20l]
  have hb58 : decodeBase58Check (encodeBase58Check (params.scriptAddrPre ++ h20)) 21
      = some (params.scriptAddrPre ++ h20) :=
    decodeBase58Check_encodeBase58Check _ hbytes 21 (by omega)
  have hpk_eq := list_len1_eq _ hp1
  have hsc_eq := list_len1_eq _ hsc1
  have hpq : params.pubkeyAddrPre.getD 0 0 ≠ params.scriptAddrPre.getD 0 0 := by
    intro h
    apply hpre
    rw [hpk_eq, hsc_eq, h]
  have hnp : params.pubkeyAddrPre.isPrefixOf (params.scriptAddrPre ++ h20) = false := by
    rw [hpk_eq, hsc_eq]
    simp [List.isPrefixOf]
    simpa [List.getD] using hpq
  rw [DecodeDestination, if_pos (beq_eq_false_iff_ne.mpr hne)]
  simp only [hb58]
  rw [if_neg (by
    intro hc
    rw [hnp] at hc
    simp at hc)]
  rw [if_pos ⟨by rw [hlen, hsc1],
    List.isPrefixOf_iff_prefix.mpr (List.prefix_append _ _)⟩]
  rw [List.drop_left]
  simp [insertAtL, EncodePushBytes_N]

theorem decode_dest_w0 (params : Params) (wp : List Nat)
    (hwb : ∀ v ∈ wp, v < 256) (hw : wp.length = 20 ∨ wp.length = 32)
    (hh1 : 1 ≤ params.hrp.length) (hh30 : params.hrp.length ≤ 30)
    (hhc : ∀ c ∈ params.hrp, 33 ≤ c ∧ c ≤ 126 ∧ isUpperC c = false) :
    DecodeDestination
        (bech32Encode .BECH32 params.hrp ([0] ++ (ConvertBits 8 5 true wp).getD []))
        [] params
      = (true, [OP_0, wp.length] ++ wp, "") := by
  obtain ⟨y, hy1, hy2, hylt, hylen1, hylen2⟩ := convertBits_id wp hwb
  rw [hy1]
  simp only [Option.getD_some]
  have hdlt : ∀ v ∈ [0] ++ y, v < 2 ^ 5 := by
    intro v hv
    rcases List.mem_append.1 hv with hv | hv
    · simp only [List.mem_singleton] at hv
      omega
    · exact hylt v hv
  have hylen : y.length ≤ 52 := by
    rcases hw with hw | hw <;> rw [hw] at hylen2 <;> omega
  have hlen90 : params.hrp.length + 1 + ([0] ++ y).length + 6 ≤ 90 := by
    simp only [List.length_append, List.length_singleton]
    omega
  have hdec := bech32_enc_dec .BECH32 params.hrp ([0] ++ y) (by simp) hh1 (by omega)
    hhc hdlt hlen90
  have htake : (bech32Encode .BECH32 params.hrp ([0] ++ y)).take params.hrp.length
      = params.hrp := by
    rw [bech32Encode, List.append_assoc]
    exact List.take_left' rfl
  have hlow : toLowerL params.hrp = params.hrp := toLowerL_id _ (fun c hc => (hhc c hc).2.2)
  have he1 : (⟨.BECH32, params.hrp, [0] ++ y⟩ : Bech32Res).encoding = .BECH32 := rfl
  have he2 : (⟨.BECH32, params.hrp, [0] ++ y⟩ : Bech32Res).hrp = params.hrp := rfl
  have he3 : (⟨.BECH32, params.hrp, [0] ++ y⟩ : Bech32Res).data = [0] ++ y := rfl
  rw [DecodeDestination]
  rw [if_neg (by rw [htake, hlow, beq_self_eq_true]; simp)]
  simp only [hdec, he1, he2, he3]
  rw [if_pos (Or.inl trivial)]
  rw [if_neg (by simp)]
  rw [if_neg (by simp)]
  rw [if_neg (by simp)]
  rw [if_neg (by simp)]
  have hdrop1 : ([0] ++ y).drop 1 = y := by simp
  simp only [hdrop1, hy2]
  rw [if_pos (by simp)]
  rcases hw with hw | hw
  · rw [if_pos hw, hw]
    simp [insertAtL, EncodePushBytes_N]
  · rw [if_neg (by omega), if_pos hw, hw]
    simp [insertAtL, EncodePushBytes_N]

theorem decode_dest_w1 (params : Params) (wp : List Nat)
    (hwb : ∀ v ∈ wp, v < 256) (hw : wp.length = 32)
    (hh1 : 1 ≤ params.hrp.length) (hh30 : params.hrp.length ≤ 30)
    (hhc : ∀ c ∈ params.hrp, 33 ≤ c ∧ c ≤ 126 ∧ isUpperC c = false) :
    DecodeDestination
        (bech32Encode .BECH32M params.hrp ([1] ++ (ConvertBits 8 5 true wp).getD []))
        [] params
      = (true, [OP_1, 32] ++ wp, "") := by
  obtain ⟨y, hy1, hy2, hylt, hylen1, hylen2⟩ := convertBits_id wp hwb
  rw [hy1]
  simp only [Option.getD_some]
  have hdlt : ∀ v ∈ [1] ++ y, v < 2 ^ 5 := by
    intro v hv
    rcases List.mem_append.1 hv with hv | hv
    · simp only [List.mem_singleton] at hv
      omega
    · exact hylt v hv
  have hylen : y.length ≤ 52 := by
    rw [hw] at hylen2
    omega
  have hlen90 : params.hrp.length + 1 + ([1] ++ y).length + 6 ≤ 90 := by
    simp only [List.length_append, List.length_singleton]
    omega
  have hdec := bech32_enc_dec .BECH32M params.hrp ([1] ++ y) (by simp) hh1 (by omega)
    hhc hdlt hlen90
  have htake : (bech32Encode .BECH32M params.hrp ([1] ++ y)).take params.hrp.length
      = params.hrp := by
    rw [bech32Encode, List.append_assoc]
    exact List.take_left' rfl
  have hlow : toLowerL params.hrp = params.hrp := toLowerL_id _ (fun c hc => (hhc c hc).2.2)
  have he1 : (⟨.BECH32M, params.hrp, [1] ++ y⟩ : Bech32Res).encoding = .BECH32M := rfl
  have he2 : (⟨.BECH32M, params.hrp, [1] ++ y⟩ : Bech32Res).hrp = params.hrp := rfl
  have he3 : (⟨.BECH32M, params.hrp, [1] ++ y⟩ : Bech32Res).data = [1] ++ y := rfl
  rw [DecodeDestination]
  rw [if_neg (by rw [htake, hlow, beq_self_eq_true]; simp)]
  simp only [hdec, he1, he2, he3]
  rw [if_pos (Or.inr trivial)]
  rw [if_neg (by simp)]
  rw [if_neg (by simp)]
  rw [if_neg (by simp)]
  rw [if_neg (by simp)]
  have hdrop1 : ([1] ++ y).drop 1 = y := by simp
  simp only [hdrop1, hy2]
  rw [if_neg (by simp)]
  rw [if_pos ⟨by simp, by rw [hw]; rfl⟩]
  simp [insertAtL, EncodePushBytes_N]

/-- Helper: the ExtractDestination → DecodeDestination round trip for the five
single-address kinds, under standard-shaped parameters. -/
theorem extract_decode_aux (s : List Nat) (params : Params)
    (hs : ∀ v ∈ s, v < 256)
    (hpk1 : params.pubkeyAddrPre.length = 1) (hsc1 : params.scriptAddrPre.length = 1)
    (hpre : params.pubkeyAddrPre ≠ params.scriptAddrPre)
    (hpkb : ∀ v ∈ params.pubkeyAddrPre, v < 256)
    (hscb : ∀ v ∈ params.scriptAddrPre, v < 256)
    (hh1 : 1 ≤ params.hrp.length) (hh30 : params.hrp.length ≤ 30)
    (hhc : ∀ c ∈ params.hrp, 33 ≤ c ∧ c ≤ 126 ∧ isUpperC c = false)
    (hkind : (Solver s).1 = TxoutType.PUBKEYHASH ∨ (Solver s).1 = TxoutType.SCRIPTHASH
      ∨ (Solver s).1 = TxoutType.WITNESS_V0_KEYHASH
      ∨ (Solver s).1 = TxoutType.WITNESS_V0_SCRIPTHASH
      ∨ (Solver s).1 = TxoutType.WITNESS_V1_TAPROOT)
    (hnc : (Solver s).1 = TxoutType.PUBKEYHASH ∨ (Solver s).1 = TxoutType.SCRIPTHASH →
      toLowerL (((ExtractDestination s params []).2.getD 0 []).take params.hrp.length)
        ≠ params.hrp) :
    (ExtractDestination s params []).1 = true
      ∧ (ExtractDestination s params []).2.length = 1
      ∧ DecodeDestination ((ExtractDestination s params []).2.getD 0 []) [] params
          = (true, s, "") := by
  rcases hkind with hk | hk | hk | hk | hk
  · obtain ⟨h20, hm, hsol⟩ := solver_pkh_inv hk
    obtain ⟨h25, hb0, hb1, hb2, hb23, hb24, hh⟩ := matchPKH_inv hm
    have h20l : h20.length = 20 := by
      rw [hh]
      simp [List.length_take, List.length_drop, h25]
    have hext : ExtractDestination s params []
        = (true, [encodeBase58Check (params.pubkeyAddrPre ++ h20)]) := by
      simp [ExtractDestination, hsol, List.take_of_length_le (le_of_eq h20l)]
    have h20b : ∀ v ∈ h20, v < 256 := by
      intro v hv
      rw [hh] at hv
      exact hs v (List.mem_of_mem_drop (List.mem_of_mem_take hv))
    have hne : toLowerL ((encodeBase58Check (params.pubkeyAddrPre ++ h20)).take
        params.hrp.length) ≠ params.hrp := by
      simpa [hext] using hnc (Or.inl hk)
    have hdec := decode_dest_pkh params h20 hpk1 hpkb h20l h20b hne
    refine ⟨by rw [hext], by rw [hext]; rfl, ?_⟩
    rw [show (ExtractDestination s params []).2.getD 0 []
        = encodeBase58Check (params.pubkeyAddrPre ++ h20) from by rw [hext]; rfl]
    rw [hdec]
    have hsrec := p2pkh_script_eq h25 hb0 hb1 hb2 hb23 hb24
    rw [← hh] at hsrec
    rw [← hsrec]
  · obtain ⟨hp2sh, hsol⟩ := solver_sh_inv hk
    obtain ⟨h23, hc0, hc1, hc22⟩ := isP2SH_inv hp2sh
    have h20l : ((s.drop 2).take 20).length = 20 := by
      simp [List.length_take, List.length_drop, h23]
    have hext : ExtractDestination s params []
        = (true, [encodeBase58Check (params.scriptAddrPre ++ (s.drop 2).take 20)]) := by
      simp [ExtractDestination, hsol, List.take_of_length_le (le_of_eq h20l)]
    have h20b : ∀ v ∈ (s.drop 2).take 20, v < 256 := by
      intro v hv
      exact hs v (List.mem_of_mem_drop (List.mem_of_mem_take hv))
    have hne : toLowerL ((encodeBase58Check
        (params.scriptAddrPre ++ (s.drop 2).take 20)).take
        params.hrp.length) ≠ params.hrp := by
      simpa [hext] using hnc (Or.inr hk)
    have hdec := decode_dest_sh params _ hpk1 hsc1 hpre hscb h20l h20b hne
    refine ⟨by rw [hext], by rw [hext]; rfl, ?_⟩
    rw [show (ExtractDestination s params []).2.getD 0 []
        = encodeBase58Check (params.scriptAddrPre ++ (s.drop 2).take 20) from by rw [hext]; rfl]
    rw [hdec]
    have hsrec := p2sh_script_eq h23 hc0 hc1 hc22
    rw [← hsrec]
  · obtain ⟨wp, hwit, hwl, hsol⟩ := solver_w0k_inv hk
    obtain ⟨hl4, hl42, hver, hl2, hwv, hwp⟩ := isWitness_inv hwit
    have hwb : ∀ v ∈ wp, v < 256 := by
      intro v hv
      rw [hwp] at hv
      exact hs v (List.mem_of_mem_drop hv)
    have hext : ExtractDestination s params []
        = (true, [bech32Encode .BECH32 params.hrp
            ([0] ++ (ConvertBits 8 5 true wp).getD [])]) := by
      simp [ExtractDestination, hsol]
    have hdec := decode_dest_w0 params wp hwb (Or.inl hwl) hh1 hh30 hhc
    refine ⟨by rw [hext], by rw [hext]; rfl, ?_⟩
    rw [show (ExtractDestination s params []).2.getD 0 []
        = bech32Encode .BECH32 params.hrp ([0] ++ (ConvertBits 8 5 true wp).getD [])
      from by rw [hext]; rfl]
    rw [hdec]
    have h0 : s.getD 0 0 = OP_0 := decodeOPN_zero hver hwv.symm
    have h1 : s.getD 1 0 = wp.length := by
      rw [hwp, List.length_drop]
      omega
    have hsrec := witness_script_eq (s := s) (by omega)
    rw [h0, h1, ← hwp] at hsrec
    rw [← hsrec]
  · obtain ⟨wp, hwit, hwl, hsol⟩ := solver_w0s_inv hk
    obtain ⟨hl4, hl42, hver, hl2, hwv, hwp⟩ := isWitness_inv hwit
    have hwb : ∀ v ∈ wp, v < 256 := by
      intro v hv
      rw [hwp] at hv
      exact hs v (List.mem_of_mem_drop hv)
    have hext : ExtractDestination s params []
        = (true, [bech32Encode .BECH32 params.hrp
            ([0] ++ (ConvertBits 8 5 true wp).getD [])]) := by
      simp [ExtractDestination, hsol]
    have hdec := decode_dest_w0 params wp hwb (Or.inr hwl) hh1 hh30 hhc
    refine ⟨by rw [hext], by rw [hext]; rfl, ?_⟩
    rw [show (ExtractDestination s params []).2.getD 0 []
        = bech32Encode .BECH32 params.hrp ([0] ++ (ConvertBits 8 5 true wp).getD [])
      from by rw [hext]; rfl]
    rw [hdec]
    have h0 : s.getD 0 0 = OP_0 := decodeOPN_zero hver hwv.symm
    have h1 : s.getD 1 0 = wp.length := by
      rw [hwp, List.length_drop]
      omega
    have hsrec := witness_script_eq (s := s) (by omega)
    rw [h0, h1, ← hwp] at hsrec
    rw [← hsrec]
  · obtain ⟨wp, hwit, hwl, hsol⟩ := solver_w1t_inv hk
    obtain ⟨hl4, hl42, hver, hl2, hwv, hwp⟩ := isWitness_inv hwit
    have hwb : ∀ v ∈ wp, v < 256 := by
      intro v hv
      rw [hwp] at hv
      exact hs v (List.mem_of_mem_drop hv)
    have hext : ExtractDestination s params []
        = (true, [bech32Encode .BECH32M params.hrp
            ([1] ++ (ConvertBits 8 5 true wp).getD [])]) := by
      simp [ExtractDestination, hsol]
    have hdec := decode_dest_w1 params wp hwb hwl hh1 hh30 hhc
    refine ⟨by rw [hext], by rw [hext]; rfl, ?_⟩
    rw [show (ExtractDestination s params []).2.getD 0 []
        = bech32Encode .BECH32M params.hrp ([1] ++ (ConvertBits 8 5 true wp).getD [])
      from by rw [hext]; rfl]
    rw [hdec]
    have h0 : s.getD 0 0 = OP_1 := decodeOPN_one hver hwv.symm
    have h1 : s.getD 1 0 = wp.length := by
      rw [hwp, List.length_drop]
      omega
    have hsrec := witness_script_eq (s := s) (by omega)
    rw [h0, h1, ← hwp, hwl] at hsrec
    rw [← hsrec]

/-- C1 (amended): for every byte script `s` and every parameter set whose two
Base58 address prefixes are distinct single bytes and whose HRP is 1..30
lowercase characters in `[33,126]`, if `Solver s` is one of the five
single-address kinds and — for the two Base58 kinds — the produced address
does not case-fold onto the HRP, then `ExtractDestination` succeeds with
exactly one address and `DecodeDestination` of that address with the same
parameters succeeds and returns a script byte-equal to `s`.  (The original
claim, quantified over every parameter set, is refuted by
`extract_decode_roundtrip_cex`.) -/
theorem extract_decode_roundtrip (s : List Nat) (params : Params)
    (hs : ∀ v ∈ s, v < 256)
    (hpk1 : params.pubkeyAddrPre.length = 1) (hsc1 : params.scriptAddrPre.length = 1)
    (hpre : params.pubkeyAddrPre ≠ params.scriptAddrPre)
    (hpkb : ∀ v ∈ params.pubkeyAddrPre, v < 256)
    (hscb : ∀ v ∈ params.scriptAddrPre, v < 256)
    (hh1 : 1 ≤ params.hrp.length) (hh30 : params.hrp.length ≤ 30)
    (hhc : ∀ c ∈ params.hrp, 33 ≤ c ∧ c ≤ 126 ∧ isUpperC c = false)
    (hkind : (Solver s).1 = TxoutType.PUBKEYHASH ∨ (Solver s).1 = TxoutType.SCRIPTHASH
      ∨ (Solver s).1 = TxoutType.WITNESS_V0_KEYHASH
      ∨ (Solver s).1 = TxoutType.WITNESS_V0_SCRIPTHASH
      ∨ (Solver s).1 = TxoutType.WITNESS_V1_TAPROOT)
    (hnc : (Solver s).1 = TxoutType.PUBKEYHASH ∨ (Solver s).1 = TxoutType.SCRIPTHASH →
      toLowerL (((ExtractDestination s params []).2.getD 0 []).take params.hrp.length)
        ≠ params.hrp) :
    (ExtractDestination s params []).1 = true
      ∧ (ExtractDestination s params []).2.length = 1
      ∧ DecodeDestination ((ExtractDestination s params []).2.getD 0 []) [] params
          = (true, s, "") :=
  extract_decode_aux s params hs hpk1 hsc1 hpre hpkb hscb hh1 hh30 hhc hkind hnc

set_option maxRecDepth 100000 in
/-- Counterexample to C1 as stated: a standard P2PKH script and a parameter
set with a two-byte pubkey-address prefix.  `Solver` classifies the script
as PUBKEYHASH and `ExtractDestination` emits its address, but
`DecodeDestination` rejects that address (its Base58Check payload has 22
bytes, over the hard-coded 21-byte `max_len`), so the round trip fails. -/
theorem extract_decode_roundtrip_cex :
    (Solver [118, 169, 20, 1, 2, 3, 4, 5, 6, 7, 8, 9, 10, 11, 12, 13, 14, 15, 16,
        17, 18, 19, 20, 136, 172]).1 = TxoutType.PUBKEYHASH
    ∧ (ExtractDestination [118, 169, 20, 1, 2, 3, 4, 5, 6, 7, 8, 9, 10, 11, 12, 13,
        14, 15, 16, 17, 18, 19, 20, 136, 172] ⟨[0, 0], [5], [98, 99]⟩ []).1 = true
    ∧ 1 ≤ (ExtractDestination [118, 169, 20, 1, 2, 3, 4, 5, 6, 7, 8, 9, 10, 11, 12,
        13, 14, 15, 16, 17, 18, 19, 20, 136, 172] ⟨[0, 0], [5], [98, 99]⟩ []).2.length
    ∧ (DecodeDestination
        ((ExtractDestination [118, 169, 20, 1, 2, 3, 4, 5, 6, 7, 8, 9, 10, 11, 12,
          13, 14, 15, 16, 17, 18, 19, 20, 136, 172] ⟨[0, 0], [5], [98, 99]⟩ []).2.getD 0 [])
        [] ⟨[0, 0], [5], [98, 99]⟩).1 = false := by
  decide

set_option maxRecDepth 100000 in
/-- Witness for the amended C1 at a concrete P2WPKH script and standard
single-byte-prefix parameters with HRP `bc`. -/
theorem extract_decode_roundtrip_witness :
    ((∀ v ∈ [0, 20, 1, 2, 3, 4, 5, 6, 7, 8, 9, 10, 11, 12, 13, 14, 15, 16, 17, 18,
        19, 20], v < 256)
      ∧ (Params.mk [0] [5] [98, 99]).pubkeyAddrPre.length = 1
      ∧ (Params.mk [0] [5] [98, 99]).scriptAddrPre.length = 1
      ∧ (Params.mk [0] [5] [98, 99]).pubkeyAddrPre ≠ (Params.mk [0] [5] [98, 99]).scriptAddrPre
      ∧ (∀ v ∈ (Params.mk [0] [5] [98, 99]).pubkeyAddrPre, v < 256)
      ∧ (∀ v ∈ (Params.mk [0] [5] [98, 99]).scriptAddrPre, v < 256)
      ∧ 1 ≤ (Params.mk [0] [5] [98, 99]).hrp.length
      ∧ (Params.mk [0] [5] [98, 99]).hrp.length ≤ 30
      ∧ (∀ c ∈ (Params.mk [0] [5] [98, 99]).hrp, 33 ≤ c ∧ c ≤ 126 ∧ isUpperC c = false)
      ∧ (Solver [0, 20, 1, 2, 3, 4, 5, 6, 7, 8, 9, 10, 11, 12, 13, 14, 15, 16, 17,
          18, 19, 20]).1 = TxoutType.WITNESS_V0_KEYHASH)
    ∧ ((ExtractDestination [0, 20, 1, 2, 3, 4, 5, 6, 7, 8, 9, 10, 11, 12, 13, 14, 15,
          16, 17, 18, 19, 20] (Params.mk [0] [5] [98, 99]) []).1 = true
      ∧ (ExtractDestination [0, 20, 1, 2, 3, 4, 5, 6, 7, 8, 9, 10, 11, 12, 13, 14,
          15, 16, 17, 18, 19, 20] (Params.mk [0] [5] [98, 99]) []).2.length = 1
      ∧ DecodeDestination
          ((ExtractDestination [0, 20, 1, 2, 3, 4, 5, 6, 7, 8, 9, 10, 11, 12, 13, 14,
            15, 16, 17, 18, 19, 20] (Params.mk [0] [5] [98, 99]) []).2.getD 0 [])
          [] (Params.mk [0] [5] [98, 99])
          = (true, [0, 20, 1, 2, 3, 4, 5, 6, 7, 8, 9, 10, 11, 12, 13, 14, 15, 16, 17,
              18, 19, 20], "")) :=
  ⟨by decide,
    extract_decode_roundtrip
      [0, 20, 1, 2, 3, 4, 5, 6, 7, 8, 9, 10, 11, 12, 13, 14, 15, 16, 17, 18, 19, 20]
      (Params.mk [0] [5] [98, 99])
      (by decide) (by decide) (by decide) (by decide) (by decide) (by decide)
      (by decide) (by decide) (by decide) (by decide) (by decide)⟩

end Btc
